import Mathlib

/-!
Verification development for the `bmp_rs` BMP decoder.

The definitions below are a shallow embedding of the Rust sources:
`src/lib.rs` (the crate entry point, namespace `Lib`) and `src/bitmap.rs`
(a reworked decoder, namespace `Bm`).  Machine integers are modelled as
`Nat`/`Int`; `u32` arithmetic that can wrap uses explicit `% 2^32`
(release-mode wrapping semantics).  Rust operations that abort the
process (index out of bounds, division by zero, explicit panics) are
modelled as a distinct `panicked`/`none` outcome, separate from the
`Result`-valued errors the library returns.
-/

set_option maxRecDepth 4000

namespace BmpRs

/-- Little-endian value of a byte list (first byte is least significant);
each entry is truncated to a byte. -/
def leNat (bs : List Nat) : Nat :=
  bs.foldr (fun b acc => b % 256 + 256 * acc) 0

/-- Read exactly `n` bytes from the stream; `none` models a failed
`read_exact` (an `IoError` in the source).  The bytes read are
truncated to `0..255`, so every buffer below is a genuine byte list. -/
def readBytes (n : Nat) (s : List Nat) : Option (List Nat × List Nat) :=
  if n ≤ s.length then some ((s.take n).map (· % 256), s.drop n) else none

/-- `read_u16::<LittleEndian>`. -/
def readU16 (s : List Nat) : Option (Nat × List Nat) :=
  match readBytes 2 s with
  | none => none
  | some (bs, r) => some (leNat bs, r)

/-- `read_u32::<LittleEndian>`. -/
def readU32 (s : List Nat) : Option (Nat × List Nat) :=
  match readBytes 4 s with
  | none => none
  | some (bs, r) => some (leNat bs, r)

/-- Reinterpret an unsigned `w`-bit value as two's-complement signed. -/
def toSigned (w : Nat) (v : Nat) : Int :=
  if v < 2 ^ (w - 1) then (v : Int) else (v : Int) - 2 ^ w

/-- `read_i16::<LittleEndian>`. -/
def readI16 (s : List Nat) : Option (Int × List Nat) :=
  match readU16 s with
  | none => none
  | some (v, r) => some (toSigned 16 v, r)

/-- `read_i32::<LittleEndian>`. -/
def readI32 (s : List Nat) : Option (Int × List Nat) :=
  match readU32 s with
  | none => none
  | some (v, r) => some (toSigned 32 v, r)

/-- `u32` wrap-around of an integer (`as u32` cast / release-mode wrap). -/
def wrap32 (n : Int) : Nat := (n % (2 ^ 32 : Int)).toNat

/-- One RGBA sample (`Color` in both sources). -/
structure Color where
  r : Nat
  g : Nat
  b : Nat
  a : Nat
deriving DecidableEq, Repr

/-- A call made on the caller-supplied `Builder` sink. -/
inductive Call where
  | setSize (w h : Nat)
  | setPixel (x y r g b a : Nat)
deriving DecidableEq, Repr

/-- Number of `setPixel` calls in a trace. -/
def countPx : List Call → Nat
  | [] => 0
  | Call.setPixel _ _ _ _ _ _ :: t => countPx t + 1
  | Call.setSize _ _ :: t => countPx t

/-- Bitfield channel masks (`BitfieldMask` in both sources). -/
structure Mask where
  red : Nat
  green : Nat
  blue : Nat
  alpha : Nat
deriving DecidableEq, Repr

/-- Fuel-driven trailing-zero count; on `0` it accumulates all the fuel. -/
def tzGo : Nat → Nat → Nat
  | 0, _ => 0
  | f + 1, m => if m % 2 = 1 then 0 else 1 + tzGo f (m / 2)

/-- `u32::trailing_zeros`: 32 for the value 0. -/
def tz32 (m : Nat) : Nat := tzGo 32 m

/-- `u32::checked_shr(...).unwrap_or(0)`: zero once the shift reaches 32. -/
def checkedShr (m s : Nat) : Nat := if 32 ≤ s then 0 else m >>> s

namespace Lib

/-- The distinguishable `DecodingError::IOError` messages of `lib.rs`
(every error is carried as one io-error value; messages differ).
`panicOut` marks a modelled process abort inside header parsing. -/
inductive Err where
  | shortRead
  | badFileType
  | badVersion (size : Int)
  | badWidth
  | badHeight
  | badPlanes (v : Nat)
  | badBpp (v : Nat)
  | badCompression (code bpp : Nat)
  | unexpectedPalette (size : Nat)
  | panicOut
deriving DecidableEq, Repr

/-- Header generations (`enum Version` in `lib.rs`). -/
inductive Version where
  | microsoft2
  | microsoft3
  | microsoft4
  | microsoft5
deriving DecidableEq, Repr

/-- The enum discriminant (`version as usize`): the declared header size. -/
def Version.hsize : Version → Nat
  | .microsoft2 => 12
  | .microsoft3 => 40
  | .microsoft4 => 108
  | .microsoft5 => 124

/-- `Version::from_isize`.  NOTE: in `lib.rs` the
`MSVERSION5_SIZE => Ok(Version::Microsoft5)` match arm is commented out,
so the size 124 falls through to the error case. -/
def Version.from_isize (size : Int) : Except Err Version :=
  if size = 12 then .ok .microsoft2
  else if size = 40 then .ok .microsoft3
  else if size = 108 then .ok .microsoft4
  else .error (.badVersion size)

/-- Parsed core header (`struct Core`). -/
structure Core where
  width : Nat
  height : Nat
  bpp : Nat
  planes : Nat
  bottom_up : Bool
deriving DecidableEq, Repr

/-- The two dimension reads at the start of `Core::from_buffer`:
16-bit signed for Microsoft2, 32-bit signed otherwise (the 16-bit values
are widened to `i32` before use, exactly as `dimension[0] as i32`). -/
def readDims (version : Version) (buf : List Nat) :
    Option ((Int × Int) × List Nat) :=
  match version with
  | .microsoft2 =>
    match readI16 buf with
    | none => none
    | some (w, r1) =>
      match readI16 r1 with
      | none => none
      | some (h, r2) => some ((w, h), r2)
  | _ =>
    match readI32 buf with
    | none => none
    | some (w, r1) =>
      match readI32 r1 with
      | none => none
      | some (h, r2) => some ((w, h), r2)

/-- `Core::from_buffer`.  `bottom_up` is `height.signum() == 1`;
`checked_abs` fails exactly on the minimum `i32`. -/
def Core.from_buffer (buf : List Nat) (version : Version) : Except Err Core :=
  match readDims version buf with
  | none => .error .shortRead
  | some ((w, h), r2) =>
    -- bottom_up := height.signum() == 1, i.e. 0 < h (inlined below)
    if w = -(2 ^ 31) then .error .badWidth
    else if h = -(2 ^ 31) then .error .badHeight
    else
      match readU16 r2 with
      | none => .error .shortRead
      | some (planes, r3) =>
        if planes ≠ 1 then .error (.badPlanes planes)
        else
          match readU16 r3 with
          | none => .error .shortRead
          | some (bpp, _r4) =>
            if bpp = 1 ∨ bpp = 4 ∨ bpp = 8 ∨ bpp = 16 ∨ bpp = 24 ∨ bpp = 32 then
              if version = .microsoft2 ∧ (bpp = 16 ∨ bpp = 32) then
                .error (.badBpp bpp)
              else
                .ok ⟨w.natAbs, h.natAbs, bpp, planes, decide (0 < h)⟩
            else .error (.badBpp bpp)

/-- `enum Compression` in `lib.rs`. -/
inductive Compression where
  | rle8
  | rle4
  | bitfield
deriving DecidableEq, Repr

/-- `struct Info`. -/
structure Info where
  compression : Option Compression
  image_size : Nat
  ppm_x : Int
  ppm_y : Int
  used_colors : Nat
  important_colors : Nat
deriving DecidableEq, Repr

/-- `Info::from_buffer`: compression code validated against the bit depth. -/
def Info.from_buffer (buf : List Nat) (bpp : Nat) : Except Err Info :=
  match readU32 buf with
  | none => .error .shortRead
  | some (code, r1) =>
    let comp? : Except Err (Option Compression) :=
      if code = 0 then .ok none
      else if code = 1 ∧ bpp = 8 then .ok (some .rle8)
      else if code = 2 ∧ bpp = 4 then .ok (some .rle4)
      else if code = 3 ∧ (bpp = 16 ∨ bpp = 32) then .ok (some .bitfield)
      else .error (.badCompression code bpp)
    match comp? with
    | .error e => .error e
    | .ok compression =>
      match readU32 r1 with
      | none => .error .shortRead
      | some (image_size, r2) =>
        match readI32 r2 with
        | none => .error .shortRead
        | some (ppm_x, r3) =>
          match readI32 r3 with
          | none => .error .shortRead
          | some (ppm_y, r4) =>
            match readU32 r4 with
            | none => .error .shortRead
            | some (used_colors, r5) =>
              match readU32 r5 with
              | none => .error .shortRead
              | some (important_colors, _r6) =>
                .ok ⟨compression, image_size, ppm_x, ppm_y,
                     used_colors, important_colors⟩

/-- `BitfieldMask::from_buffer` (alpha only read when `has_alpha`). -/
def Mask.from_buffer (buf : List Nat) (has_alpha : Bool) : Except Err Mask :=
  match readU32 buf with
  | none => .error .shortRead
  | some (red, r1) =>
    match readU32 r1 with
    | none => .error .shortRead
    | some (green, r2) =>
      match readU32 r2 with
      | none => .error .shortRead
      | some (blue, r3) =>
        if has_alpha then
          match readU32 r3 with
          | none => .error .shortRead
          | some (alpha, _r4) => .ok ⟨red, green, blue, alpha⟩
        else .ok ⟨red, green, blue, 0⟩

/-- One palette entry from a chunk of raw bytes: layout `(B,G,R[,x])`;
out-of-range chunk indexing is a panic (`none`). -/
def colorOfChunk (has_alpha : Bool) (x : List Nat) : Option Color :=
  match x.get? 0, x.get? 1, x.get? 2 with
  | some b, some g, some r =>
    match has_alpha, x.get? 3 with
    | true, some a => some ⟨r, g, b, a⟩
    | true, none => none
    | false, _ => some ⟨r, g, b, 255⟩
  | _, _, _ => none

/-- Fuel-driven chunk split; the fuel (list length at the entry point)
dominates the number of chunks, so it never runs out. -/
def chunkedF : Nat → Nat → List Nat → List (List Nat)
  | 0, _, _ => []
  | _, _, [] => []
  | f + 1, m, a :: l => (a :: l).take (m + 1) :: chunkedF f m (l.drop m)

/-- Split a byte list into chunks of `m + 1` bytes (`slice::chunks`;
the chunk size is always 3 or 4 at the call sites, never 0). -/
def chunked (m : Nat) (l : List Nat) : List (List Nat) :=
  chunkedF l.length m l

/-- `struct Palette`. -/
structure Palette where
  colors : List Color
deriving DecidableEq, Repr

/-- `Palette::from_buffer`: iterates all chunks of the buffer (the `size`
argument is only a capacity hint in the source). -/
def Palette.from_buffer (buf : List Nat) (_size color_size : Nat)
    (has_alpha : Bool) : Option Palette :=
  match (chunked (color_size - 1) buf).mapM (colorOfChunk has_alpha) with
  | none => none
  | some colors => some ⟨colors⟩

/-- `struct Header`. -/
structure Header where
  version : Version
  core : Core
  info : Option Info
  palette : Option Palette
  bitmask : Option Mask
deriving DecidableEq, Repr

/-- The palette-size computation inside `Header::from_reader`
(`1 << core.bpp` wraps its shift amount in release mode). -/
def paletteSizeOf (info : Option Info) (bpp : Nat) : Nat :=
  match info with
  | some i =>
    if i.used_colors = 0 ∧ bpp < 16 then 1 <<< (bpp % 32) else i.used_colors
  | none => 1 <<< (bpp % 32)

/-- The info-header part of `Header::from_reader`: only Microsoft3 files
carry an `Info` (`Info::from_buffer(&buffer[12..])`). -/
def readInfoPart (version : Version) (buffer : List Nat) (bpp : Nat) :
    Except Err (Option Info) :=
  match version with
  | .microsoft3 =>
    match Info.from_buffer (buffer.drop 12) bpp with
    | .error e => .error e
    | .ok i => .ok (some i)
  | _ => .ok none

/-- The `// Read Bitmask` step of `Header::from_reader`. -/
def readBitmaskPart (input : List Nat) (info : Option Info) (bpp : Nat)
    (has_alpha : Bool) : Except Err (Option Mask × List Nat) :=
  match info with
  | some i =>
    match i.compression with
    | some .bitfield =>
      match readBytes 12 input with
      | none => .error .shortRead
      | some (mb, r3) =>
        match Mask.from_buffer mb has_alpha with
        | .error e => .error e
        | .ok m => .ok (some m, r3)
    | _ =>
      if bpp = 16 then .ok (some ⟨0x7C00, 0x3E0, 0x1F, 0⟩, input)
      else if bpp = 32 then .ok (some ⟨0xFF0000, 0xFF00, 0xFF, 0⟩, input)
      else .ok (none, input)
  | none => .ok (none, input)

/-- The `// Read palette` step of `Header::from_reader`: palette bytes
are only read for bpp 1/4/8; any other bpp with a nonzero computed size
is rejected; a zero size leaves the palette `None`. -/
def readPalettePart (input : List Nat) (version : Version)
    (bpp psize : Nat) (has_alpha : Bool) :
    Except Err (Option Palette × List Nat) :=
  if 0 < psize then
    if bpp = 1 ∨ bpp = 4 ∨ bpp = 8 then
      match readBytes (psize * (if version = .microsoft2 then 3 else 4)) input with
      | none => .error .shortRead
      | some (pbuf, r4) =>
        match Palette.from_buffer pbuf psize
            (if version = .microsoft2 then 3 else 4) has_alpha with
        | none => .error .panicOut
        | some p => .ok (some p, r4)
    else .error (.unexpectedPalette psize)
  else .ok (none, input)

/-- `Header::from_reader` (everything after the 14-byte file header). -/
def Header.from_reader (input : List Nat) : Except Err (Header × List Nat) :=
  match readU32 input with
  | none => .error .shortRead
  | some (sz, r1) =>
    match Version.from_isize (sz : Int) with
    | .error e => .error e
    | .ok version =>
      match readBytes (version.hsize - 4) r1 with
      | none => .error .shortRead
      | some (buffer, r2) =>
        match Core.from_buffer buffer version with
        | .error e => .error e
        | .ok core =>
          match readInfoPart version buffer core.bpp with
          | .error e => .error e
          | .ok info =>
            match readBitmaskPart r2 info core.bpp (version = .microsoft4) with
            | .error e => .error e
            | .ok (bitmask, r3) =>
              match readPalettePart r3 version core.bpp
                  (paletteSizeOf info core.bpp) (version = .microsoft4) with
              | .error e => .error e
              | .ok (palette, r4) =>
                .ok (⟨version, core, info, palette, bitmask⟩, r4)

/-- The per-pixel channel computation of `decode_16bpp` in `lib.rs`.
NOTE the source computes `alpha_shift` from `mask.red.trailing_zeros()`.
A zero red/green/blue mask leads to a division by zero (a panic, `none`);
shift amounts wrap modulo 32 and the `255 * _` product wraps modulo 2^32
(release semantics). -/
def pixel16 (m : Mask) (raw : Nat) : Option Color :=
  let aS := tz32 m.red % 32
  let rS := tz32 m.red % 32
  let gS := tz32 m.green % 32
  let bS := tz32 m.blue % 32
  let aM := if m.alpha = 0 then 0 else m.alpha >>> aS
  let rM := m.red >>> rS
  let gM := m.green >>> gS
  let bM := m.blue >>> bS
  if rM = 0 ∨ gM = 0 ∨ bM = 0 then none
  else
    let a := if aM = 0 then 255
             else 255 * ((raw &&& m.alpha) >>> aS) % 2 ^ 32 / aM % 256
    some ⟨255 * ((raw &&& m.red) >>> rS) % 2 ^ 32 / rM % 256,
          255 * ((raw &&& m.green) >>> gS) % 2 ^ 32 / gM % 256,
          255 * ((raw &&& m.blue) >>> bS) % 2 ^ 32 / bM % 256, a⟩

/-- The per-pixel channel computation of `decode_32bpp` in `lib.rs`
(here `alpha_shift` does use `mask.alpha.trailing_zeros()`). -/
def pixel32 (m : Mask) (raw : Nat) : Option Color :=
  let aS := tz32 m.alpha % 32
  let rS := tz32 m.red % 32
  let gS := tz32 m.green % 32
  let bS := tz32 m.blue % 32
  let aM := if m.alpha = 0 then 0 else m.alpha >>> aS
  let rM := m.red >>> rS
  let gM := m.green >>> gS
  let bM := m.blue >>> bS
  if rM = 0 ∨ gM = 0 ∨ bM = 0 then none
  else
    let a := if aM = 0 then 255
             else 255 * ((raw &&& m.alpha) >>> aS) % 2 ^ 32 / aM % 256
    some ⟨255 * ((raw &&& m.red) >>> rS) % 2 ^ 32 / rM % 256,
          255 * ((raw &&& m.green) >>> gS) % 2 ^ 32 / gM % 256,
          255 * ((raw &&& m.blue) >>> bS) % 2 ^ 32 / bM % 256, a⟩

/-- Sequential pixel emission shared by every uncompressed row decoder:
emit the pixel, advance `x`, stop once `width ≤ x + 1` (checked after the
emission, exactly as in the source loops); a `none` entry is a panic
(`false` flag) occurring before that pixel's `set_pixel`. -/
def emitPix (width row : Nat) : List (Option Color) → Nat → List Call × Bool
  | [], _ => ([], true)
  | none :: _, _ => ([], false)
  | some c :: rest, x =>
    let cl := Call.setPixel x row c.r c.g c.b c.a
    if width ≤ x + 1 then ([cl], true)
    else
      let (t, ok) := emitPix width row rest (x + 1)
      (cl :: t, ok)

/-- Most-significant-bit-first bit expansion of one byte (`decode_1bpp`'s
inner `for bit in (0..8).rev()` loop). -/
def bitsOfByte (b : Nat) : List Nat :=
  [(b >>> 7) &&& 1, (b >>> 6) &&& 1, (b >>> 5) &&& 1, (b >>> 4) &&& 1,
   (b >>> 3) &&& 1, (b >>> 2) &&& 1, (b >>> 1) &&& 1, b &&& 1]

/-- Flattened bit stream of a 1bpp row buffer. -/
def idx1 : List Nat → List Nat
  | [] => []
  | b :: rest => bitsOfByte b ++ idx1 rest

/-- Flattened nibble stream of a 4bpp row buffer (high nibble first). -/
def idx4 : List Nat → List Nat
  | [] => []
  | b :: rest => ((b >>> 4) &&& 15) :: (b &&& 15) :: idx4 rest

/-- `decode_1bpp`: palette lookups of the bit stream; an out-of-range
palette index is a panic. -/
def decode_1bpp (width row : Nat) (buf : List Nat) (pal : List Color) :
    List Call × Bool :=
  emitPix width row ((idx1 buf).map pal.get?) 0

/-- `decode_4bpp`. -/
def decode_4bpp (width row : Nat) (buf : List Nat) (pal : List Color) :
    List Call × Bool :=
  emitPix width row ((idx4 buf).map pal.get?) 0

/-- `decode_8bpp`. -/
def decode_8bpp (width row : Nat) (buf : List Nat) (pal : List Color) :
    List Call × Bool :=
  emitPix width row (buf.map pal.get?) 0

/-- 16-bit little-endian pixel stream of a row buffer; a trailing short
chunk makes `read_u16` panic (`none`). -/
def colors16 (m : Mask) : List Nat → List (Option Color)
  | [] => []
  | b0 :: b1 :: rest => pixel16 m (leNat [b0, b1]) :: colors16 m rest
  | _ => [none]

/-- 24-bit `(B,G,R)` pixel stream; a short trailing chunk panics on the
`bytes[2]` access. -/
def colors24 : List Nat → List (Option Color)
  | [] => []
  | b :: g :: r :: rest => some ⟨r, g, b, 255⟩ :: colors24 rest
  | _ => [none]

/-- 32-bit little-endian pixel stream. -/
def colors32 (m : Mask) : List Nat → List (Option Color)
  | [] => []
  | b0 :: b1 :: b2 :: b3 :: rest =>
    pixel32 m (leNat [b0, b1, b2, b3]) :: colors32 m rest
  | _ => [none]

/-- `decode_16bpp`. -/
def decode_16bpp (width row : Nat) (buf : List Nat) (m : Mask) :
    List Call × Bool :=
  emitPix width row (colors16 m buf) 0

/-- `decode_24bpp`. -/
def decode_24bpp (width row : Nat) (buf : List Nat) : List Call × Bool :=
  emitPix width row (colors24 buf) 0

/-- `decode_32bpp`. -/
def decode_32bpp (width row : Nat) (buf : List Nat) (m : Mask) :
    List Call × Bool :=
  emitPix width row (colors32 m buf) 0

/-- `decode_nothing`. -/
def decode_nothing (_width _row : Nat) (_buf : List Nat) : List Call × Bool :=
  ([], true)

/-- `( ( y as i32 ) + row_mod ) as u32` (the casts wrap). -/
def yStep (y : Nat) (rowMod : Int) : Nat := wrap32 ((y : Int) + rowMod)

/-- RLE cursor state `(x, y, index)`. -/
structure RleSt where
  x : Nat
  y : Nat
  i : Nat
deriving DecidableEq, Repr

/-- Result of processing one 2-byte RLE opcode. -/
inductive StepRes where
  | contS (st : RleSt)
  | stopS
  | panicS
deriving DecidableEq, Repr

/-- The next compressed-stream index after a step, when decoding goes on. -/
def StepRes.nextIdx : StepRes → Option Nat
  | .contS st => some st.i
  | _ => none

/-- Encoded run (`count > 0`): repeat one color, wrapping the cursor to the
next row whenever `x` passed `width` (checked before each emission). -/
def rleEnc (width : Nat) (c : Color) (rowMod : Int) :
    Nat → Nat → Nat → List Call × Nat × Nat
  | 0, x, y => ([], x, y)
  | n + 1, x, y =>
    let p := if width ≤ x then (0, yStep y rowMod) else (x, y)
    let cl := Call.setPixel p.1 p.2 c.r c.g c.b c.a
    let (t, x', y') := rleEnc width c rowMod n ((p.1 + 1) % 2 ^ 32) p.2
    (cl :: t, x', y')

/-- RLE4 encoded run: the two nibble colors alternate, starting with the
high nibble's. -/
def rleAlt (width : Nat) (c1 c2 : Color) (rowMod : Int) :
    Nat → Bool → Nat → Nat → List Call × Nat × Nat
  | 0, _, x, y => ([], x, y)
  | n + 1, control, x, y =>
    let c := if control then c2 else c1
    let p := if width ≤ x then (0, yStep y rowMod) else (x, y)
    let cl := Call.setPixel p.1 p.2 c.r c.g c.b c.a
    let (t, x', y') := rleAlt width c1 c2 rowMod n (!control) ((p.1 + 1) % 2 ^ 32) p.2
    (cl :: t, x', y')

/-- RLE8 absolute run: `n` literal palette indices read from the buffer.
Returns emitted calls, the buffer indices read, and `none` on a panic
(buffer or palette out of bounds); the `index >= count` check after each
consumed literal ends the run early. -/
def rle8abs (buffer : List Nat) (count width : Nat) (pal : List Color)
    (rowMod : Int) : Nat → Nat → Nat → Nat → List Call × List Nat × Option RleSt
  | 0, x, y, i => ([], [], some ⟨x, y, i⟩)
  | n + 1, x, y, i =>
    let p := if width ≤ x then (0, yStep y rowMod) else (x, y)
    match buffer.get? i with
    | none => ([], [i], none)
    | some b =>
      match pal.get? b with
      | none => ([], [i], none)
      | some c =>
        let cl := Call.setPixel p.1 p.2 c.r c.g c.b c.a
        if count ≤ i + 1 then ([cl], [i], some ⟨(p.1 + 1) % 2 ^ 32, p.2, i + 1⟩)
        else
          let (t, rs, st) := rle8abs buffer count width pal rowMod n
            ((p.1 + 1) % 2 ^ 32) p.2 (i + 1)
          (cl :: t, i :: rs, st)

/-- RLE4 absolute run over `m` packed-nibble bytes; every byte emits its
high nibble, its low nibble is emitted when the byte is not the last one
of the run or (for the last one) when the declared pixel count is even. -/
def rle4abs (buffer : List Nat) (count width : Nat) (pal : List Color)
    (rowMod : Int) (evenRun : Bool) :
    Nat → Nat → Nat → Nat → List Call × List Nat × Option RleSt
  | 0, x, y, i => ([], [], some ⟨x, y, i⟩)
  | m + 1, x, y, i =>
    let p := if width ≤ x then (0, yStep y rowMod) else (x, y)
    match buffer.get? i with
    | none => ([], [i], none)
    | some b =>
      match pal.get? ((b >>> 4) &&& 15) with
      | none => ([], [i], none)
      | some c1 =>
        let cl1 := Call.setPixel p.1 p.2 c1.r c1.g c1.b c1.a
        let x1 := (p.1 + 1) % 2 ^ 32
        if m = 0 then
          if evenRun then
            let q := if width ≤ x1 then (0, yStep p.2 rowMod) else (x1, p.2)
            match pal.get? (b &&& 15) with
            | none => ([cl1], [i], none)
            | some c2 =>
              let cl2 := Call.setPixel q.1 q.2 c2.r c2.g c2.b c2.a
              ([cl1, cl2], [i], some ⟨(q.1 + 1) % 2 ^ 32, q.2, i + 1⟩)
          else ([cl1], [i], some ⟨x1, p.2, i + 1⟩)
        else
          let q := if width ≤ x1 then (0, yStep p.2 rowMod) else (x1, p.2)
          match pal.get? (b &&& 15) with
          | none => ([cl1], [i], none)
          | some c2 =>
            let cl2 := Call.setPixel q.1 q.2 c2.r c2.g c2.b c2.a
            if count ≤ i + 1 then
              ([cl1, cl2], [i], some ⟨(q.1 + 1) % 2 ^ 32, q.2, i + 1⟩)
            else
              let (t, rs, st) := rle4abs buffer count width pal rowMod evenRun
                m ((q.1 + 1) % 2 ^ 32) q.2 (i + 1)
              (cl1 :: cl2 :: t, i :: rs, st)

/-- One iteration of the RLE8 opcode loop (entered with `index < count`).
Returns the builder calls, the buffer indices read, and the next state.
The second opcode byte and both delta bytes are read without any bound
check against `count`. -/
def rle8step (buffer : List Nat) (count width : Nat) (pal : List Color)
    (rowMod : Int) (x y i : Nat) : List Call × List Nat × StepRes :=
  match buffer.get? i with
  | none => ([], [i], .panicS)
  | some first =>
    match buffer.get? (i + 1) with
    | none => ([], [i, i + 1], .panicS)
    | some second =>
      if first = 0 then
        if second = 0 then ([], [i, i + 1], .contS ⟨0, yStep y rowMod, i + 2⟩)
        else if second = 1 then ([], [i, i + 1], .stopS)
        else if second = 2 then
          match buffer.get? (i + 2) with
          | none => ([], [i, i + 1, i + 2], .panicS)
          | some dx =>
            match buffer.get? (i + 3) with
            | none => ([], [i, i + 1, i + 2, i + 3], .panicS)
            | some dyb =>
              ([], [i, i + 1, i + 2, i + 3],
               .contS ⟨(x + dx) % 2 ^ 32,
                       wrap32 ((y : Int) + rowMod * (dyb : Nat)), i + 4⟩)
        else
          let (t, rs, st?) :=
            rle8abs buffer count width pal rowMod second x y (i + 2)
          match st? with
          | none => (t, i :: (i + 1) :: rs, .panicS)
          | some st =>
            (t, i :: (i + 1) :: rs, .contS ⟨st.x, st.y, st.i + second % 2⟩)
      else
        match pal.get? second with
        | none => ([], [i, i + 1], .panicS)
        | some c =>
          let (t, x', y') := rleEnc width c rowMod first x y
          (t, [i, i + 1], .contS ⟨x', y', i + 2⟩)

/-- One iteration of the RLE4 opcode loop. -/
def rle4step (buffer : List Nat) (count width : Nat) (pal : List Color)
    (rowMod : Int) (x y i : Nat) : List Call × List Nat × StepRes :=
  match buffer.get? i with
  | none => ([], [i], .panicS)
  | some first =>
    match buffer.get? (i + 1) with
    | none => ([], [i, i + 1], .panicS)
    | some second =>
      if first = 0 then
        if second = 0 then ([], [i, i + 1], .contS ⟨0, yStep y rowMod, i + 2⟩)
        else if second = 1 then ([], [i, i + 1], .stopS)
        else if second = 2 then
          match buffer.get? (i + 2) with
          | none => ([], [i, i + 1, i + 2], .panicS)
          | some dx =>
            match buffer.get? (i + 3) with
            | none => ([], [i, i + 1, i + 2, i + 3], .panicS)
            | some dyb =>
              ([], [i, i + 1, i + 2, i + 3],
               .contS ⟨(x + dx) % 2 ^ 32,
                       wrap32 ((y : Int) + rowMod * (dyb : Nat)), i + 4⟩)
        else
          let evenRun := second % 2 = 0
          let secondLen := (second + second % 2) / 2
          let (t, rs, st?) :=
            rle4abs buffer count width pal rowMod evenRun secondLen x y (i + 2)
          match st? with
          | none => (t, i :: (i + 1) :: rs, .panicS)
          | some st =>
            (t, i :: (i + 1) :: rs, .contS ⟨st.x, st.y, st.i + secondLen % 2⟩)
      else
        match pal.get? ((second >>> 4) &&& 15) with
        | none => ([], [i, i + 1], .panicS)
        | some c1 =>
          match pal.get? (second &&& 15) with
          | none => ([], [i, i + 1], .panicS)
          | some c2 =>
            let (t, x', y') := rleAlt width c1 c2 rowMod first false x y
            (t, [i, i + 1], .contS ⟨x', y', i + 2⟩)

/-- Accumulated output of an RLE decode. -/
structure RleOut where
  calls : List Call
  reads : List Nat
  panicked : Bool
deriving DecidableEq, Repr

/-- The RLE opcode loop, driven by fuel.  Every iteration advances the
index by at least 2, so fuel `count + 1` never runs out; the fuel-out
value is arbitrary and unreachable. -/
def rleGo (step : Nat → Nat → Nat → List Call × List Nat × StepRes)
    (count : Nat) : Nat → Nat → Nat → Nat → RleOut
  | 0, _, _, _ => ⟨[], [], true⟩
  | f + 1, x, y, i =>
    if count ≤ i then ⟨[], [], false⟩
    else
      let (t, rs, res) := step x y i
      match res with
      | .panicS => ⟨t, rs, true⟩
      | .stopS => ⟨t, rs, false⟩
      | .contS st =>
        let out := rleGo step count f st.x st.y st.i
        ⟨t ++ out.calls, rs ++ out.reads, out.panicked⟩

/-- The RLE8 decompression loop of `decode`. -/
def rle8go (buffer : List Nat) (count width : Nat) (pal : List Color)
    (rowMod : Int) (fuel x y i : Nat) : RleOut :=
  rleGo (rle8step buffer count width pal rowMod) count fuel x y i

/-- The RLE4 decompression loop of `decode`. -/
def rle4go (buffer : List Nat) (count width : Nat) (pal : List Color)
    (rowMod : Int) (fuel x y i : Nat) : RleOut :=
  rleGo (rle4step buffer count width pal rowMod) count fuel x y i

/-- Outcome of a whole `decode` call. -/
inductive DOut where
  | success
  | failure (e : Err)
  | panicked
deriving DecidableEq, Repr

/-- The `compression` boolean computed in `decode`. -/
def effCompression (hdr : Header) : Bool :=
  match hdr.version, hdr.info with
  | .microsoft2, _ => false
  | _, some i => i.compression.isSome
  | _, none => false

/-- Whether `decode` takes one of the two RLE branches. -/
def rlePath (hdr : Header) : Bool :=
  effCompression hdr && (hdr.core.bpp == 8 || hdr.core.bpp == 4)

/-- The `decode_row` selection `match` in `decode` (the guarded arms for
4bpp/8bpp require `!compression`; everything else falls to the no-op). -/
def pickRow (width bpp : Nat) (comp : Bool) (pal : List Color) (m : Mask) :
    Nat → List Nat → List Call × Bool :=
  if bpp = 1 then fun row buf => decode_1bpp width row buf pal
  else if bpp = 4 ∧ ¬comp then fun row buf => decode_4bpp width row buf pal
  else if bpp = 8 ∧ ¬comp then fun row buf => decode_8bpp width row buf pal
  else if bpp = 16 then fun row buf => decode_16bpp width row buf m
  else if bpp = 24 then fun row buf => decode_24bpp width row buf
  else if bpp = 32 then fun row buf => decode_32bpp width row buf m
  else fun row buf => decode_nothing width row buf

/-- The scanline loop of the uncompressed path: `n` rows remain, `y` is
the current file row; each row reads `stride` bytes and hands the
orientation-corrected destination row to the row decoder. -/
def rowsLoop (dr : Nat → List Nat → List Call × Bool)
    (stride height : Nat) (bu : Bool) :
    Nat → Nat → List Nat → List Call × DOut
  | 0, _, _ => ([], .success)
  | n + 1, y, input =>
    match readBytes stride input with
    | none => ([], .failure .shortRead)
    | some (rowbuf, rest) =>
      let row := if bu then height - y - 1 else y
      let (calls, ok) := dr row rowbuf
      if ok then
        let (t, o) := rowsLoop dr stride height bu n (y + 1) rest
        (calls ++ t, o)
      else (calls, .panicked)

/-- Everything `decode` does after the headers are parsed: `set_size`,
the palette/bitmask unwraps (a `None` is a panic), then either an RLE
branch (with the `panic!` on a zero `image_size`) or the scanline loop. -/
def decodeBody (hdr : Header) (rest : List Nat) : List Call × DOut :=
  let w := hdr.core.width
  let h := hdr.core.height
  let bpp := hdr.core.bpp
  let first := Call.setSize w h
  let stride := (w * bpp + 31) % 2 ^ 32 / 32 * 4
  let comp := effCompression hdr
  let palette? : Option (List Color) :=
    if bpp = 1 ∨ bpp = 4 ∨ bpp = 8 then hdr.palette.map Palette.colors
    else some []
  match palette? with
  | none => ([first], .panicked)
  | some pal =>
    let mask? : Option Mask :=
      if bpp = 16 ∨ bpp = 32 then hdr.bitmask else some ⟨0, 0, 0, 0⟩
    match mask? with
    | none => ([first], .panicked)
    | some mask =>
      let y0 := if hdr.core.bottom_up then wrap32 ((h : Int) - 1) else 0
      let rowMod : Int := if hdr.core.bottom_up then -1 else 1
      if bpp = 8 ∧ comp then
        match hdr.info with
        | none => ([first], .panicked)
        | some i =>
          if i.image_size = 0 then ([first], .panicked)
          else
            match readBytes i.image_size rest with
            | none => ([first], .failure .shortRead)
            | some (buffer, _) =>
              let out := rle8go buffer i.image_size w pal rowMod
                (i.image_size + 1) 0 y0 0
              (first :: out.calls, if out.panicked then .panicked else .success)
      else if bpp = 4 ∧ comp then
        match hdr.info with
        | none => ([first], .panicked)
        | some i =>
          if i.image_size = 0 then ([first], .panicked)
          else
            match readBytes i.image_size rest with
            | none => ([first], .failure .shortRead)
            | some (buffer, _) =>
              let out := rle4go buffer i.image_size w pal rowMod
                (i.image_size + 1) 0 y0 0
              (first :: out.calls, if out.panicked then .panicked else .success)
      else
        let dr := pickRow w bpp comp pal mask
        let (t, o) := rowsLoop dr stride h hdr.core.bottom_up h 0 rest
        (first :: t, o)

/-- The 14-byte file header read plus the magic check of `decode`.
NOTE the source condition is `header[0] != 0x42 && header[1] != 0x4D`:
the error fires only when BOTH bytes are wrong. -/
def parseHeaders (input : List Nat) : Except Err (Header × List Nat) :=
  match readBytes 14 input with
  | none => .error .shortRead
  | some (fh, rest) =>
    if fh.getD 0 0 ≠ 0x42 ∧ fh.getD 1 0 ≠ 0x4D then .error .badFileType
    else Header.from_reader rest

/-- `bmp_rs::decode`, as the builder-call trace plus the outcome. -/
def decode (input : List Nat) : List Call × DOut :=
  match parseHeaders input with
  | .error .panicOut => ([], .panicked)
  | .error e => ([], .failure e)
  | .ok (hdr, rest) => decodeBody hdr rest

end Lib

namespace Bm

/-- `Version` of `bitmap.rs`. -/
inductive Version where
  | microsoft2
  | microsoft3
  | microsoft4
  | microsoft5
deriving DecidableEq, Repr

/-- The header-size dispatch of `Version::from_reader` in `bitmap.rs`
(this rework does accept 0x7C = 124); the error carries the size. -/
def Version.from_size (n : Nat) : Except Nat Version :=
  if n = 0x0C then .ok .microsoft2
  else if n = 0x28 then .ok .microsoft3
  else if n = 0x6C then .ok .microsoft4
  else if n = 0x7C then .ok .microsoft5
  else .error n

/-- The magic-number dispatch of `FileType::from_reader` in `bitmap.rs`:
the little-endian `u16` must equal 0x4D42 (ASCII "BM"). -/
def fileTypeOk (n : Nat) : Bool := n == 0x4D42

/-- `clamp8bit` of `bitmap.rs` (shift amounts and the `255 * _` product
wrap as `u32` operations; the final `as u8` truncates). -/
def clamp8bit (value mask shr_count mask_max dflt : Nat) : Nat :=
  if mask_max = 0 then dflt
  else 255 * ((value &&& mask) >>> (shr_count % 32)) % 2 ^ 32 / mask_max % 256

/-- The per-pixel channel computation of `decode_16bpp` in `bitmap.rs`:
every channel uses its own mask's trailing-zero count and a
`checked_shr` maximum. -/
def pixel16 (m : Mask) (raw : Nat) : Color :=
  let aS := tz32 m.alpha
  let rS := tz32 m.red
  let gS := tz32 m.green
  let bS := tz32 m.blue
  let aM := checkedShr m.alpha aS
  let rM := checkedShr m.red rS
  let gM := checkedShr m.green gS
  let bM := checkedShr m.blue bS
  ⟨clamp8bit raw m.red rS rM 0,
   clamp8bit raw m.green gS gM 0,
   clamp8bit raw m.blue bS bM 0,
   clamp8bit raw m.alpha aS aM 255⟩

/-- The per-pixel channel computation of `decode_32bpp` in `bitmap.rs`.
NOTE: the source computes `alpha_shift` from `mask.red.trailing_zeros()`,
not from the alpha mask. -/
def pixel32 (m : Mask) (raw : Nat) : Color :=
  let aS := tz32 m.red
  let rS := tz32 m.red
  let gS := tz32 m.green
  let bS := tz32 m.blue
  let aM := checkedShr m.alpha aS
  let rM := checkedShr m.red rS
  let gM := checkedShr m.green gS
  let bM := checkedShr m.blue bS
  ⟨clamp8bit raw m.red rS rM 0,
   clamp8bit raw m.green gS gM 0,
   clamp8bit raw m.blue bS bM 0,
   clamp8bit raw m.alpha aS aM 255⟩

end Bm

/-- The spec's rescale function, written from its words: with
`shift = trailing_zero_count(mask)` and `maxValue = mask >> shift`,
`scaled(raw) = maxValue == 0 ? defaultValue
             : floor(255 * ((raw & mask) >> shift) / maxValue)`. -/
def specScaled (mask raw dflt : Nat) : Nat :=
  let s := tz32 mask
  let maxV := checkedShr mask s
  if maxV = 0 then dflt else 255 * ((raw &&& mask) >>> s) / maxV

/-- Bytes of a `u32` little-endian value. -/
def u32le (n : Nat) : List Nat :=
  [n % 256, n / 256 % 256, n / 65536 % 256, n / 16777216 % 256]

/-- Bytes of a `u16` little-endian value. -/
def u16le (n : Nat) : List Nat := [n % 256, n / 256 % 256]

/-- Bytes of an `i32` little-endian value. -/
def i32le (n : Int) : List Nat := u32le (wrap32 n)

/-- Bytes of an `i16` little-endian value. -/
def i16le (n : Int) : List Nat := u16le ((n % (2 ^ 16 : Int)).toNat)

/-- A 14-byte BMP file header with the given two magic bytes. -/
def fileHeaderBytes (b0 b1 : Nat) : List Nat :=
  [b0, b1] ++ u32le 0 ++ u32le 0 ++ u32le 54

/-- A 40-byte Microsoft3 bitmap header. -/
def ms3HeaderBytes (w h : Int) (bpp compression imageSize usedColors : Nat) :
    List Nat :=
  u32le 40 ++ i32le w ++ i32le h ++ u16le 1 ++ u16le bpp ++
  u32le compression ++ u32le imageSize ++ u32le 0 ++ u32le 0 ++
  u32le usedColors ++ u32le 0

/-- A 2×2 RLE8 file whose compressed segment is the single byte `0x00`
(half an opcode): `imageDataSize = 1`. -/
def inRle8Short : List Nat :=
  fileHeaderBytes 0x42 0x4D ++ ms3HeaderBytes 2 2 8 1 1 1 ++
  [10, 20, 30, 0] ++ [0]

/-- A 2×2 RLE8 file with a one-color palette and the encoded run
`(1, 5)`: the run value 5 is out of the palette's range. -/
def inRle8PalOob : List Nat :=
  fileHeaderBytes 0x42 0x4D ++ ms3HeaderBytes 2 2 8 1 2 1 ++
  [10, 20, 30, 0] ++ [1, 5]

/-- A 4×1 RLE8 file whose header declares `imageDataSize = 0`. -/
def inRle8ZeroSize : List Nat :=
  fileHeaderBytes 0x42 0x4D ++ ms3HeaderBytes 4 1 8 1 0 1 ++ [10, 20, 30, 0]

/-- A well-formed 1×1 24bpp file whose magic bytes are `B`,`X`. -/
def inBadMagic : List Nat :=
  fileHeaderBytes 0x42 0x58 ++ ms3HeaderBytes 1 1 24 0 0 0 ++
  [0x0A, 0x14, 0x1E, 0x00]

/-- The same 1×1 24bpp file with the correct `B`,`M` magic. -/
def inSmall24 : List Nat :=
  fileHeaderBytes 0x42 0x4D ++ ms3HeaderBytes 1 1 24 0 0 0 ++
  [0x0A, 0x14, 0x1E, 0x00]

/-- A 2×1 RLE8 file whose stream is the single encoded run `(1, 0)`:
it ends (by exhausting the declared size) after one pixel. -/
def inRleEarly : List Nat :=
  fileHeaderBytes 0x42 0x4D ++ ms3HeaderBytes 2 1 8 1 2 1 ++
  [10, 20, 30, 0] ++ [1, 0]

/-- A bottom-up 1×2 24bpp file (two stored rows). -/
def inBottomUp2 : List Nat :=
  fileHeaderBytes 0x42 0x4D ++ ms3HeaderBytes 1 2 24 0 0 0 ++
  [1, 2, 3, 0] ++ [4, 5, 6, 0]

/-- A 32bpp file declaring width 2^27, which overflows the `u32` stride
computation (`width * 32` wraps to 0, so the stride becomes 0). -/
def inHugeWidth : List Nat :=
  fileHeaderBytes 0x42 0x4D ++ ms3HeaderBytes (2 ^ 27) 1 32 0 0 0

/-- A Microsoft2 core-header buffer declaring width 1, height 0,
one plane, 1 bit per pixel. -/
def coreBufZeroHeight : List Nat := [1, 0, 0, 0, 1, 0, 1, 0]

/-- A Microsoft2 header stream (after the file header): 1×1, 1bpp, with
its 2-entry, 3-byte-per-color palette. -/
def inMs2Pal : List Nat :=
  [12, 0, 0, 0] ++ [1, 0] ++ [1, 0] ++ [1, 0] ++ [1, 0] ++
  [10, 20, 30, 40, 50, 60]

theorem tzGo_spec : ∀ f m, m ≠ 0 → m < 2 ^ f →
    (m >>> tzGo f m) % 2 = 1 ∧ (m >>> tzGo f m) * 2 ^ tzGo f m = m := by
  intro f
  induction f with
  | zero => intro m h0 h1; omega
  | succ f ih =>
    intro m h0 h1
    by_cases hodd : m % 2 = 1
    · simp only [tzGo, hodd, if_pos]
      simp [Nat.shiftRight_zero, hodd]
    · have hme : m % 2 = 0 := by omega
      have h2 : m / 2 ≠ 0 := by omega
      have h3 : m / 2 < 2 ^ f := by
        rw [pow_succ] at h1; omega
      obtain ⟨ho, he⟩ := ih (m / 2) h2 h3
      have hunf : tzGo (f + 1) m = 1 + tzGo f (m / 2) := by
        simp [tzGo, hodd]
      rw [hunf]
      have hsr : m >>> (1 + tzGo f (m / 2)) = (m / 2) >>> tzGo f (m / 2) := by
        rw [Nat.shiftRight_add, Nat.shiftRight_one]
      refine ⟨by rw [hsr]; exact ho, ?_⟩
      rw [hsr, pow_add, pow_one]
      calc (m / 2) >>> tzGo f (m / 2) * (2 * 2 ^ tzGo f (m / 2))
          = ((m / 2) >>> tzGo f (m / 2) * 2 ^ tzGo f (m / 2)) * 2 := by ring
        _ = (m / 2) * 2 := by rw [he]
        _ = m := by omega

theorem tz32_odd (m : Nat) (h0 : m ≠ 0) (h32 : m < 2 ^ 32) :
    (m >>> tz32 m) % 2 = 1 :=
  (tzGo_spec 32 m h0 h32).1

theorem tz32_mul_eq (m : Nat) (h0 : m ≠ 0) (h32 : m < 2 ^ 32) :
    (m >>> tz32 m) * 2 ^ tz32 m = m :=
  (tzGo_spec 32 m h0 h32).2

theorem tz32_shift_ne_zero (m : Nat) (h0 : m ≠ 0) (h32 : m < 2 ^ 32) :
    m >>> tz32 m ≠ 0 := by
  intro h
  have := tz32_odd m h0 h32
  rw [h] at this
  omega

theorem tz32_lt_32 (m : Nat) (h0 : m ≠ 0) (h32 : m < 2 ^ 32) :
    tz32 m < 32 := by
  by_contra hge
  have h1 : (2 : Nat) ^ 32 ≤ 2 ^ tz32 m :=
    Nat.pow_le_pow_right (by norm_num) (by omega)
  have h2 : 1 ≤ m >>> tz32 m :=
    Nat.one_le_iff_ne_zero.mpr (tz32_shift_ne_zero m h0 h32)
  have h3 := tz32_mul_eq m h0 h32
  nlinarith [h3, h1, h2]

theorem tz32_zero : tz32 0 = 32 := by decide

theorem and_mod_two_pow_zero (n m k : Nat) (hm : m % 2 ^ k = 0) :
    (n &&& m) % 2 ^ k = 0 := by
  apply Nat.eq_of_testBit_eq
  intro i
  rw [Nat.testBit_mod_two_pow, Nat.testBit_and, Nat.zero_testBit]
  by_cases hik : i < k
  · have hmb : m.testBit i = false := by
      have h := Nat.testBit_mod_two_pow m k i
      rw [hm] at h
      rw [Nat.zero_testBit] at h
      simpa [hik] using h.symm
    simp [hmb]
  · simp [hik]

theorem shiftRight_le_of_and (raw mask s : Nat) :
    (raw &&& mask) >>> s ≤ mask >>> s := by
  rw [Nat.shiftRight_eq_div_pow, Nat.shiftRight_eq_div_pow]
  exact Nat.div_le_div_right Nat.and_le_right

theorem clamp_eq_spec (mask raw d : Nat) (h32 : mask < 2 ^ 32)
    (hov : 255 * checkedShr mask (tz32 mask) < 2 ^ 32) :
    Bm.clamp8bit raw mask (tz32 mask) (checkedShr mask (tz32 mask)) d =
      specScaled mask raw d := by
  by_cases hm : checkedShr mask (tz32 mask) = 0
  · simp [Bm.clamp8bit, specScaled, hm]
  · have hmask0 : mask ≠ 0 := by
      intro h
      apply hm
      subst h
      decide
    have htz : tz32 mask < 32 := tz32_lt_32 mask hmask0 h32
    have hcs : checkedShr mask (tz32 mask) = mask >>> tz32 mask := by
      simp [checkedShr, Nat.not_le.mpr htz]
    have hne : mask >>> tz32 mask ≠ 0 := by rw [hcs] at hm; exact hm
    have hmx : (0 : Nat) < mask >>> tz32 mask := Nat.pos_of_ne_zero hne
    have hvle := shiftRight_le_of_and raw mask (tz32 mask)
    have hprod : 255 * ((raw &&& mask) >>> tz32 mask) < 2 ^ 32 := by
      have h1 : 255 * ((raw &&& mask) >>> tz32 mask) ≤ 255 * (mask >>> tz32 mask) :=
        Nat.mul_le_mul le_rfl hvle
      rw [hcs] at hov
      omega
    have hq : 255 * ((raw &&& mask) >>> tz32 mask) / (mask >>> tz32 mask) ≤ 255 := by
      have h1 : 255 * ((raw &&& mask) >>> tz32 mask) / (mask >>> tz32 mask) ≤
          255 * (mask >>> tz32 mask) / (mask >>> tz32 mask) :=
        Nat.div_le_div_right (Nat.mul_le_mul le_rfl hvle)
      rwa [Nat.mul_div_cancel _ hmx] at h1
    simp only [Bm.clamp8bit, specScaled, hcs, if_neg hne]
    rw [Nat.mod_eq_of_lt htz, Nat.mod_eq_of_lt hprod,
      Nat.mod_eq_of_lt (lt_of_le_of_lt hq (by norm_num))]

theorem specScaled_extremes (mask d : Nat) (h0 : mask ≠ 0) (h32 : mask < 2 ^ 32) :
    specScaled mask mask d = 255 ∧ specScaled mask 0 d = 0 := by
  have htz := tz32_lt_32 mask h0 h32
  have hcs : checkedShr mask (tz32 mask) = mask >>> tz32 mask := by
    simp [checkedShr, Nat.not_le.mpr htz]
  have hne := tz32_shift_ne_zero mask h0 h32
  have hmx := Nat.pos_of_ne_zero hne
  constructor
  · simp only [specScaled, hcs, if_neg hne, Nat.and_self]
    exact Nat.mul_div_cancel 255 hmx
  · simp only [specScaled, hcs, if_neg hne, Nat.zero_and]
    simp

theorem pixel32_alpha_spec (m : Mask) (raw : Nat) (ha32 : m.alpha < 2 ^ 32)
    (hcond : tz32 m.red ≤ tz32 m.alpha ∨ m.alpha = 0)
    (hov : 255 * checkedShr m.alpha (tz32 m.red) < 2 ^ 32) :
    (Bm.pixel32 m raw).a = specScaled m.alpha raw 255 := by
  by_cases ha0 : m.alpha = 0
  · simp only [Bm.pixel32, Bm.clamp8bit, specScaled, ha0, checkedShr,
      Nat.zero_shiftRight]
    split <;> simp
  · have hle : tz32 m.red ≤ tz32 m.alpha := by
      rcases hcond with h | h
      · exact h
      · exact absurd h ha0
    have htza : tz32 m.alpha < 32 := tz32_lt_32 _ ha0 ha32
    have htzr : tz32 m.red < 32 := lt_of_le_of_lt hle htza
    have hm0 : m.alpha >>> tz32 m.alpha ≠ 0 := tz32_shift_ne_zero _ ha0 ha32
    have halpha : (m.alpha >>> tz32 m.alpha) * 2 ^ tz32 m.alpha = m.alpha :=
      tz32_mul_eq _ ha0 ha32
    set m0 := m.alpha >>> tz32 m.alpha with hm0def
    set tzr := tz32 m.red
    set tza := tz32 m.alpha
    have key1 : m.alpha >>> tzr = m0 * 2 ^ (tza - tzr) := by
      rw [Nat.shiftRight_eq_div_pow, ← halpha,
        Nat.mul_div_assoc m0 (pow_dvd_pow 2 hle),
        Nat.pow_div hle (by norm_num)]
    have key2 : (raw &&& m.alpha) % 2 ^ tza = 0 := by
      apply and_mod_two_pow_zero
      rw [← halpha]
      exact Nat.mul_mod_left m0 (2 ^ tza)
    obtain ⟨C, hC⟩ := Nat.dvd_of_mod_eq_zero key2
    have key3 : (raw &&& m.alpha) >>> tzr = C * 2 ^ (tza - tzr) := by
      rw [Nat.shiftRight_eq_div_pow, hC, Nat.mul_comm (2 ^ tza) C,
        Nat.mul_div_assoc C (pow_dvd_pow 2 hle),
        Nat.pow_div hle (by norm_num)]
    have key4 : (raw &&& m.alpha) >>> tza = C := by
      rw [Nat.shiftRight_eq_div_pow, hC]
      exact Nat.mul_div_cancel_left C (Nat.pos_pow_of_pos tza (by norm_num))
    have hCle : C ≤ m0 := by
      have h1 := shiftRight_le_of_and raw m.alpha tza
      rwa [key4] at h1
    have hcsA : checkedShr m.alpha tzr = m0 * 2 ^ (tza - tzr) := by
      rw [checkedShr, if_neg (Nat.not_le.mpr htzr)]
      exact key1
    have hAne : m0 * 2 ^ (tza - tzr) ≠ 0 :=
      Nat.mul_ne_zero hm0 (pow_ne_zero _ (by norm_num))
    have hprod : 255 * (C * 2 ^ (tza - tzr)) < 2 ^ 32 := by
      rw [hcsA] at hov
      have h1 : 255 * (C * 2 ^ (tza - tzr)) ≤ 255 * (m0 * 2 ^ (tza - tzr)) :=
        Nat.mul_le_mul le_rfl (Nat.mul_le_mul_right _ hCle)
      omega
    have hdiv : 255 * (C * 2 ^ (tza - tzr)) / (m0 * 2 ^ (tza - tzr)) =
        255 * C / m0 := by
      have e1 : 255 * (C * 2 ^ (tza - tzr)) = 2 ^ (tza - tzr) * (255 * C) := by
        ring
      have e2 : m0 * 2 ^ (tza - tzr) = 2 ^ (tza - tzr) * m0 := by ring
      rw [e1, e2]
      exact Nat.mul_div_mul_left (255 * C) m0
        (Nat.pos_pow_of_pos _ (by norm_num))
    have hq : 255 * C / m0 ≤ 255 := by
      have h1 : 255 * C / m0 ≤ 255 * m0 / m0 :=
        Nat.div_le_div_right (Nat.mul_le_mul le_rfl hCle)
      rwa [Nat.mul_div_cancel _ (Nat.pos_of_ne_zero hm0)] at h1
    have hspec : specScaled m.alpha raw 255 = 255 * C / m0 := by
      have hcsa : checkedShr m.alpha tza = m0 := by
        rw [checkedShr, if_neg (Nat.not_le.mpr htza)]
      simp only [specScaled, hcsa, if_neg hm0, key4]
    simp only [Bm.pixel32, Bm.clamp8bit, hcsA, if_neg hAne]
    rw [Nat.mod_eq_of_lt htzr, key3, Nat.mod_eq_of_lt hprod, hdiv,
      Nat.mod_eq_of_lt (lt_of_le_of_lt hq (by norm_num)), hspec]

/-- C8 (amended): in `bitmap.rs`, every channel of the 16bpp decoder and
the red/green/blue channels of the 32bpp decoder emit exactly the spec's
rescale formula, PROVIDED each channel's `maxValue` stays below
`2^32 / 255` (a wider mask wraps the u32 product `255 * value`); the
32bpp decoder computes its alpha shift from the red mask's trailing
zeros, so its alpha follows the formula only when
`tz(red) ≤ tz(alpha)` or the alpha mask is 0.  The formula itself is
exact at the extremes: for every nonzero mask below 2^32, `raw = mask`
gives 255 and `raw = 0` gives 0. -/
theorem C8_bitfield_rescale_amended :
    (∀ (m : Mask) (raw : Nat),
      m.red < 2 ^ 32 → m.green < 2 ^ 32 → m.blue < 2 ^ 32 → m.alpha < 2 ^ 32 →
      255 * checkedShr m.red (tz32 m.red) < 2 ^ 32 →
      255 * checkedShr m.green (tz32 m.green) < 2 ^ 32 →
      255 * checkedShr m.blue (tz32 m.blue) < 2 ^ 32 →
      255 * checkedShr m.alpha (tz32 m.alpha) < 2 ^ 32 →
      ((Bm.pixel16 m raw).r = specScaled m.red raw 0 ∧
       (Bm.pixel16 m raw).g = specScaled m.green raw 0 ∧
       (Bm.pixel16 m raw).b = specScaled m.blue raw 0 ∧
       (Bm.pixel16 m raw).a = specScaled m.alpha raw 255) ∧
      ((Bm.pixel32 m raw).r = specScaled m.red raw 0 ∧
       (Bm.pixel32 m raw).g = specScaled m.green raw 0 ∧
       (Bm.pixel32 m raw).b = specScaled m.blue raw 0) ∧
      ((tz32 m.red ≤ tz32 m.alpha ∨ m.alpha = 0) →
        255 * checkedShr m.alpha (tz32 m.red) < 2 ^ 32 →
        (Bm.pixel32 m raw).a = specScaled m.alpha raw 255)) ∧
    (∀ mask d : Nat, mask ≠ 0 → mask < 2 ^ 32 →
      specScaled mask mask d = 255 ∧ specScaled mask 0 d = 0) := by
  constructor
  · intro m raw hr hg hb ha hovr hovg hovb hova
    refine ⟨⟨?_, ?_, ?_, ?_⟩, ⟨?_, ?_, ?_⟩, ?_⟩
    · simpa only [Bm.pixel16] using clamp_eq_spec m.red raw 0 hr hovr
    · simpa only [Bm.pixel16] using clamp_eq_spec m.green raw 0 hg hovg
    · simpa only [Bm.pixel16] using clamp_eq_spec m.blue raw 0 hb hovb
    · simpa only [Bm.pixel16] using clamp_eq_spec m.alpha raw 255 ha hova
    · simpa only [Bm.pixel32] using clamp_eq_spec m.red raw 0 hr hovr
    · simpa only [Bm.pixel32] using clamp_eq_spec m.green raw 0 hg hovg
    · simpa only [Bm.pixel32] using clamp_eq_spec m.blue raw 0 hb hovb
    · intro hcond hov
      exact pixel32_alpha_spec m raw ha hcond hov
  · intro mask d h0 h32
    exact specScaled_extremes mask d h0 h32

/-- Witness for C8: the standard 5-5-5 masks with a 1-bit alpha mask at
bit 15, evaluated at the all-ones 16-bit pixel, plus the extremes of the
blue mask `0x1F`. -/
theorem C8_bitfield_rescale_witness :
    (Bm.pixel16 ⟨0x7C00, 0x3E0, 0x1F, 0x8000⟩ 0xFFFF).r =
      specScaled 0x7C00 0xFFFF 0 ∧
    (Bm.pixel32 ⟨0x7C00, 0x3E0, 0x1F, 0x8000⟩ 0xFFFF).a =
      specScaled 0x8000 0xFFFF 255 ∧
    specScaled 0x1F 0x1F 0 = 255 ∧ specScaled 0x1F 0 0 = 0 := by
  have h := C8_bitfield_rescale_amended
  have h1 := h.1 ⟨0x7C00, 0x3E0, 0x1F, 0x8000⟩ 0xFFFF (by norm_num) (by norm_num)
    (by norm_num) (by norm_num) (by decide) (by decide) (by decide) (by decide)
  have h2 := h.2 0x1F 0 (by norm_num) (by norm_num)
  exact ⟨h1.1.1, h1.2.2 (by decide) (by decide), h2.1, h2.2⟩

/-- C6 (amended): `Version::from_isize` in `lib.rs` accepts exactly the
header sizes 12, 40 and 108 (Core2/Info3/V4); every other size —
including 124, whose `Microsoft5` arm is commented out — yields the
unsupported-version error carrying that size.  The `bitmap.rs` rework
additionally maps 124 to V5. -/
theorem C6_version_dispatch_amended :
    Lib.Version.from_isize 12 = .ok .microsoft2 ∧
    Lib.Version.from_isize 40 = .ok .microsoft3 ∧
    Lib.Version.from_isize 108 = .ok .microsoft4 ∧
    (∀ s : Int, s ≠ 12 → s ≠ 40 → s ≠ 108 →
      Lib.Version.from_isize s = .error (.badVersion s)) ∧
    Bm.Version.from_size 12 = .ok .microsoft2 ∧
    Bm.Version.from_size 40 = .ok .microsoft3 ∧
    Bm.Version.from_size 108 = .ok .microsoft4 ∧
    Bm.Version.from_size 124 = .ok .microsoft5 ∧
    (∀ n : Nat, n ≠ 12 → n ≠ 40 → n ≠ 108 → n ≠ 124 →
      Bm.Version.from_size n = .error n) := by
  refine ⟨rfl, rfl, rfl, ?_, rfl, rfl, rfl, rfl, ?_⟩
  · intro s h12 h40 h108
    simp [Lib.Version.from_isize, h12, h40, h108]
  · intro n h12 h40 h108 h124
    simp [Bm.Version.from_size, h12, h40, h108, h124]

/-- Witness for C6 at the size 200 (spec scenario 5). -/
theorem C6_version_dispatch_witness :
    Lib.Version.from_isize 200 = .error (.badVersion 200) ∧
    Bm.Version.from_size 200 = .error 200 := by
  have h := C6_version_dispatch_amended
  exact ⟨h.2.2.2.1 200 (by decide) (by decide) (by decide),
    h.2.2.2.2.2.2.2.2 200 (by decide) (by decide) (by decide) (by decide)⟩

/-- C7 (amended): for every successfully parsed core header, the stored
orientation flag is `bottom_up = (height field > 0)`: a zero height is
marked top-down, exactly like negative heights, while strictly positive
heights are bottom-up; stored width and height are absolute values, and
a height field equal to the minimum `i32` makes parsing fail with the
dimension error. -/
theorem C7_orientation_amended :
    (∀ (version : Lib.Version) (buf : List Nat) (w h : Int)
       (rest : List Nat) (c : Lib.Core),
      Lib.readDims version buf = some ((w, h), rest) →
      Lib.Core.from_buffer buf version = .ok c →
      c.bottom_up = decide (0 < h) ∧ c.height = h.natAbs ∧
        c.width = w.natAbs) ∧
    (∀ (version : Lib.Version) (buf : List Nat) (w h : Int)
       (rest : List Nat),
      Lib.readDims version buf = some ((w, h), rest) →
      w ≠ -(2 ^ 31) → h = -(2 ^ 31) →
      Lib.Core.from_buffer buf version = .error .badHeight) := by
  constructor
  · intro version buf w h rest c hdims hok
    unfold Lib.Core.from_buffer at hok
    simp only [hdims] at hok
    by_cases hw : w = -(2 ^ 31)
    · simp [hw] at hok
    · rw [if_neg hw] at hok
      by_cases hh : h = -(2 ^ 31)
      · simp [hh] at hok
      · rw [if_neg hh] at hok
        rcases hu : readU16 rest with _ | ⟨planes, r3⟩ <;> simp only [hu] at hok
        · exact absurd hok (by simp)
        · by_cases hp : planes ≠ 1
          · simp [hp] at hok
          · rw [if_neg hp] at hok
            rcases hu2 : readU16 r3 with _ | ⟨bpp, r4⟩ <;> simp only [hu2] at hok
            · exact absurd hok (by simp)
            · by_cases hb : bpp = 1 ∨ bpp = 4 ∨ bpp = 8 ∨ bpp = 16 ∨
                  bpp = 24 ∨ bpp = 32
              · rw [if_pos hb] at hok
                by_cases hms : version = .microsoft2 ∧ (bpp = 16 ∨ bpp = 32)
                · simp [hms] at hok
                · rw [if_neg hms] at hok
                  have := Except.ok.inj hok
                  subst this
                  exact ⟨rfl, rfl, rfl⟩
              · simp [hb] at hok
  · intro version buf w h rest hdims hw hh
    unfold Lib.Core.from_buffer
    simp only [hdims]
    rw [if_neg hw, if_pos hh]

/-- Witness for C7: a Microsoft2 header with width 1, height 5 (parsed
bottom-up) and a Microsoft3 header whose height field is the minimum
`i32` (rejected). -/
theorem C7_orientation_witness :
    ((⟨1, 5, 4, 1, true⟩ : Lib.Core).bottom_up = decide ((0 : Int) < 5) ∧
      (⟨1, 5, 4, 1, true⟩ : Lib.Core).height = (5 : Int).natAbs ∧
      (⟨1, 5, 4, 1, true⟩ : Lib.Core).width = (1 : Int).natAbs) ∧
    Lib.Core.from_buffer
      ([1, 0, 0, 0] ++ [0, 0, 0, 0x80] ++ [1, 0] ++ [8, 0])
      .microsoft3 = .error .badHeight := by
  have h := C7_orientation_amended
  refine ⟨h.1 .microsoft2 [1, 0, 5, 0, 1, 0, 4, 0] 1 5 [1, 0, 4, 0]
      ⟨1, 5, 4, 1, true⟩ (by decide) rfl, ?_⟩
  exact h.2 .microsoft3 ([1, 0, 0, 0] ++ [0, 0, 0, 0x80] ++ [1, 0] ++ [8, 0])
    1 (-(2 ^ 31)) [1, 0, 8, 0] (by decide) (by decide) rfl

theorem rle8abs_idx (buffer : List Nat) (count width : Nat) (pal : List Color)
    (rowMod : Int) :
    ∀ n x y i,
      (∀ j, j < n → ∃ b, buffer.get? (i + j) = some b ∧ b < pal.length) →
      i + n ≤ count →
      ∃ st : Lib.RleSt,
        (Lib.rle8abs buffer count width pal rowMod n x y i).2.2 = some st ∧
        st.i = i + n := by
  intro n
  induction n with
  | zero => intro x y i _ _; exact ⟨⟨x, y, i⟩, rfl, rfl⟩
  | succ n ih =>
    intro x y i hl hcnt
    obtain ⟨b, hb, hblen⟩ := hl 0 (Nat.succ_pos n)
    rw [Nat.add_zero] at hb
    have hpal : pal.get? b = some (pal.get ⟨b, hblen⟩) := List.get?_eq_get hblen
    simp only [Lib.rle8abs, hb, hpal]
    generalize (if width ≤ x then ((0 : Nat), Lib.yStep y rowMod) else (x, y)) = p
    by_cases hstop : count ≤ i + 1
    · have hn0 : n = 0 := by omega
      subst hn0
      rw [if_pos hstop]
      exact ⟨⟨(p.1 + 1) % 2 ^ 32, p.2, i + 1⟩, rfl, rfl⟩
    · rw [if_neg hstop]
      have hl2 : ∀ j, j < n → ∃ b, buffer.get? (i + 1 + j) = some b ∧
          b < pal.length := by
        intro j hj
        obtain ⟨b2, hb2, hlen2⟩ := hl (j + 1) (by omega)
        refine ⟨b2, ?_, hlen2⟩
        rw [show i + 1 + j = i + (j + 1) by omega]
        exact hb2
      obtain ⟨st2, hst2, hidx⟩ :=
        ih ((p.1 + 1) % 2 ^ 32) p.2 (i + 1) hl2 (by omega)
      rcases hcall : Lib.rle8abs buffer count width pal rowMod n
          ((p.1 + 1) % 2 ^ 32) p.2 (i + 1) with ⟨t, rs, st⟩
      rw [hcall] at hst2
      simp only [hcall]
      refine ⟨st2, by simpa using hst2, by omega⟩

theorem rle4abs_idx (buffer : List Nat) (count width : Nat) (pal : List Color)
    (rowMod : Int) (evenRun : Bool) :
    ∀ m x y i,
      (∀ j, j < m → ∃ b, buffer.get? (i + j) = some b ∧
        (b >>> 4) &&& 15 < pal.length ∧ (b &&& 15) < pal.length) →
      i + m ≤ count →
      ∃ st : Lib.RleSt,
        (Lib.rle4abs buffer count width pal rowMod evenRun m x y i).2.2 =
          some st ∧ st.i = i + m := by
  intro m
  induction m with
  | zero => intro x y i _ _; exact ⟨⟨x, y, i⟩, rfl, rfl⟩
  | succ m ih =>
    intro x y i hl hcnt
    obtain ⟨b, hb, hlen1, hlen2⟩ := hl 0 (Nat.succ_pos m)
    rw [Nat.add_zero] at hb
    have hpal1 : pal.get? ((b >>> 4) &&& 15) =
        some (pal.get ⟨(b >>> 4) &&& 15, hlen1⟩) := List.get?_eq_get hlen1
    have hpal2 : pal.get? (b &&& 15) =
        some (pal.get ⟨b &&& 15, hlen2⟩) := List.get?_eq_get hlen2
    simp only [Lib.rle4abs, hb, hpal1, hpal2]
    by_cases hm0 : m = 0
    · subst hm0
      rw [if_pos rfl]
      by_cases he : evenRun
      · simp only [he, if_pos]
        exact ⟨_, rfl, rfl⟩
      · simp only [he, if_neg, Bool.false_eq_true]
        exact ⟨_, rfl, rfl⟩
    · rw [if_neg hm0]
      generalize (if width ≤ x then ((0 : Nat), Lib.yStep y rowMod) else (x, y)) = p
      generalize (if width ≤ (p.1 + 1) % 2 ^ 32 then
        ((0 : Nat), Lib.yStep p.2 rowMod) else ((p.1 + 1) % 2 ^ 32, p.2)) = q
      have hstop : ¬count ≤ i + 1 := by omega
      rw [if_neg hstop]
      have hl2 : ∀ j, j < m → ∃ b, buffer.get? (i + 1 + j) = some b ∧
          (b >>> 4) &&& 15 < pal.length ∧ (b &&& 15) < pal.length := by
        intro j hj
        obtain ⟨b2, hb2, ha2, hc2⟩ := hl (j + 1) (by omega)
        refine ⟨b2, ?_, ha2, hc2⟩
        rw [show i + 1 + j = i + (j + 1) by omega]
        exact hb2
      obtain ⟨st2, hst2, hidx⟩ :=
        ih ((q.1 + 1) % 2 ^ 32) q.2 (i + 1) hl2 (by omega)
      rcases hcall : Lib.rle4abs buffer count width pal rowMod evenRun m
          ((q.1 + 1) % 2 ^ 32) q.2 (i + 1) with ⟨t, rs, st⟩
      rw [hcall] at hst2
      simp only [hcall]
      refine ⟨st2, by simpa using hst2, by omega⟩


/-- C9: an absolute run escape `(0, v)` with `v ≥ 3` that fits in the
compressed segment (and whose literal palette indices are in range)
leaves the stream index exactly `v` literal bytes (RLE8), respectively
`ceil(v/2)` packed-nibble bytes (RLE4), past the opcode, plus one
discarded pad byte when that consumed byte count is odd, before the
next 2-byte opcode is interpreted. -/
theorem C9_absolute_run_consumption :
    (∀ (buffer : List Nat) (count width : Nat) (pal : List Color)
       (rowMod : Int) (x y i v : Nat),
      buffer.get? i = some 0 → buffer.get? (i + 1) = some v → 3 ≤ v →
      i + 2 + v ≤ count →
      (∀ j, j < v → ∃ b, buffer.get? (i + 2 + j) = some b ∧
        b < pal.length) →
      (Lib.rle8step buffer count width pal rowMod x y i).2.2.nextIdx =
        some (i + 2 + v + v % 2)) ∧
    (∀ (buffer : List Nat) (count width : Nat) (pal : List Color)
       (rowMod : Int) (x y i v : Nat),
      buffer.get? i = some 0 → buffer.get? (i + 1) = some v → 3 ≤ v →
      i + 2 + (v + v % 2) / 2 ≤ count →
      (∀ j, j < (v + v % 2) / 2 → ∃ b, buffer.get? (i + 2 + j) = some b ∧
        (b >>> 4) &&& 15 < pal.length ∧ (b &&& 15) < pal.length) →
      (Lib.rle4step buffer count width pal rowMod x y i).2.2.nextIdx =
        some (i + 2 + (v + v % 2) / 2 + (v + v % 2) / 2 % 2)) := by
  constructor
  · intro buffer count width pal rowMod x y i v h0 h1 hv hcnt hlk
    simp only [Lib.rle8step, h0, h1, if_true]
    rw [if_neg (by omega : ¬v = 0), if_neg (by omega : ¬v = 1),
      if_neg (by omega : ¬v = 2)]
    obtain ⟨st2, hst2, hidx⟩ :=
      rle8abs_idx buffer count width pal rowMod v x y (i + 2) hlk (by omega)
    rw [hst2]
    simp only [Lib.StepRes.nextIdx]
    rw [hidx]
  · intro buffer count width pal rowMod x y i v h0 h1 hv hcnt hlk
    simp only [Lib.rle4step, h0, h1, if_true]
    rw [if_neg (by omega : ¬v = 0), if_neg (by omega : ¬v = 1),
      if_neg (by omega : ¬v = 2)]
    obtain ⟨st2, hst2, hidx⟩ :=
      rle4abs_idx buffer count width pal rowMod (decide (v % 2 = 0))
        ((v + v % 2) / 2) x y (i + 2) hlk (by omega)
    rw [hst2]
    simp only [Lib.StepRes.nextIdx]
    rw [hidx]

/-- Witness for C9: the RLE8 run `(0,3)` over literals `9,9,9` consumes
3 literal bytes plus 1 pad byte (next opcode at index 6); the RLE4 run
`(0,3)` consumes 2 packed bytes and no pad (next opcode at index 4). -/
theorem C9_absolute_run_witness :
    (Lib.rle8step [0, 3, 9, 9, 9, 0] 6 4 (List.replicate 10 ⟨0, 0, 0, 255⟩)
      1 0 0 0).2.2.nextIdx = some 6 ∧
    (Lib.rle4step [0, 3, 0x12, 0x30] 4 8 (List.replicate 16 ⟨0, 0, 0, 255⟩)
      1 0 0 0).2.2.nextIdx = some 4 := by
  constructor
  · exact C9_absolute_run_consumption.1 [0, 3, 9, 9, 9, 0] 6 4
      (List.replicate 10 ⟨0, 0, 0, 255⟩) 1 0 0 0 3 rfl rfl (by norm_num)
      (by norm_num)
      (by intro j hj; interval_cases j <;> exact ⟨9, rfl, by norm_num⟩)
  · exact C9_absolute_run_consumption.2 [0, 3, 0x12, 0x30] 4 8
      (List.replicate 16 ⟨0, 0, 0, 255⟩) 1 0 0 0 3 rfl rfl (by norm_num)
      (by norm_num)
      (by intro j hj
          interval_cases j
          · exact ⟨0x12, rfl, by decide, by decide⟩
          · exact ⟨0x30, rfl, by decide, by decide⟩)


theorem core_bpp_valid (buf : List Nat) (v : Lib.Version) (c : Lib.Core)
    (h : Lib.Core.from_buffer buf v = .ok c) :
    c.bpp = 1 ∨ c.bpp = 4 ∨ c.bpp = 8 ∨ c.bpp = 16 ∨ c.bpp = 24 ∨
      c.bpp = 32 := by
  unfold Lib.Core.from_buffer at h
  repeat' split at h
  all_goals simp at h
  subst h
  assumption

theorem paletteSize_pos (info : Option Lib.Info) (bpp : Nat)
    (hbpp : bpp = 1 ∨ bpp = 4 ∨ bpp = 8) :
    0 < Lib.paletteSizeOf info bpp := by
  rcases info with _ | i
  · rcases hbpp with h | h | h <;> subst h <;> decide
  · simp only [Lib.paletteSizeOf]
    split
    · rcases hbpp with h | h | h <;> subst h <;> decide
    · rename_i hguard
      have hlt : bpp < 16 := by rcases hbpp with h | h | h <;> omega
      have : i.used_colors ≠ 0 := by
        intro h0
        exact hguard ⟨h0, hlt⟩
      omega

theorem readPalettePart_isSome (input : List Nat) (version : Lib.Version)
    (bpp psize : Nat) (ha : Bool) (p : Option Lib.Palette) (r : List Nat)
    (h : Lib.readPalettePart input version bpp psize ha = .ok (p, r))
    (hpos : 0 < psize) : p.isSome = true := by
  unfold Lib.readPalettePart at h
  rw [if_pos hpos] at h
  split at h
  · split at h
    · exact absurd h (by simp)
    · split at h
      · exact absurd h (by simp)
      · simp at h
        rw [← h.1]
        rfl
  · exact absurd h (by simp)

theorem from_reader_facts (input : List Nat) (hdr : Lib.Header)
    (rest : List Nat)
    (h : Lib.Header.from_reader input = .ok (hdr, rest)) :
    (hdr.core.bpp = 1 ∨ hdr.core.bpp = 4 ∨ hdr.core.bpp = 8 ∨
      hdr.core.bpp = 16 ∨ hdr.core.bpp = 24 ∨ hdr.core.bpp = 32) ∧
    ((hdr.core.bpp = 1 ∨ hdr.core.bpp = 4 ∨ hdr.core.bpp = 8) →
      hdr.palette.isSome = true ∧
        0 < Lib.paletteSizeOf hdr.info hdr.core.bpp) := by
  unfold Lib.Header.from_reader at h
  split at h
  · exact absurd h (by simp)
  split at h
  · exact absurd h (by simp)
  split at h
  · exact absurd h (by simp)
  split at h
  · exact absurd h (by simp)
  split at h
  · exact absurd h (by simp)
  split at h
  · exact absurd h (by simp)
  split at h
  · exact absurd h (by simp)
  simp at h
  obtain ⟨h1, h2⟩ := h
  subst h1
  rename_i x3 core hcore x2 info hinfo x1 bmask r3a hbm x0 pal r4a hpalEq
  refine ⟨core_bpp_valid _ _ _ hcore, fun hb => ?_⟩
  have hb2 : core.bpp = 1 ∨ core.bpp = 4 ∨ core.bpp = 8 := hb
  have hpos := paletteSize_pos info core.bpp hb2
  exact ⟨readPalettePart_isSome _ _ _ _ _ _ _ hpalEq hpos, hpos⟩


/-- C10: every header that parses successfully with bits-per-pixel 1, 4
or 8 has a strictly positive computed palette size and a constructed
palette, so the unconditional `header.palette.unwrap()` in `decode`
cannot panic for these bit depths. -/
theorem C10_palette_unwrap_safe :
    ∀ (input : List Nat) (hdr : Lib.Header) (rest : List Nat),
      Lib.Header.from_reader input = .ok (hdr, rest) →
      (hdr.core.bpp = 1 ∨ hdr.core.bpp = 4 ∨ hdr.core.bpp = 8) →
      hdr.palette.isSome = true ∧
        0 < Lib.paletteSizeOf hdr.info hdr.core.bpp := by
  intro input hdr rest h hb
  exact (from_reader_facts input hdr rest h).2 hb

/-- Witness for C10: a parsed 1bpp Microsoft2 header with its 2-color
palette present. -/
theorem C10_palette_unwrap_witness :
    ({ version := .microsoft2, core := ⟨1, 1, 1, 1, true⟩, info := none,
       palette := some ⟨[⟨30, 20, 10, 255⟩, ⟨60, 50, 40, 255⟩]⟩,
       bitmask := none } : Lib.Header).palette.isSome = true ∧
    0 < Lib.paletteSizeOf none 1 := by
  exact C10_palette_unwrap_safe inMs2Pal _ [] rfl (by decide)

theorem emitPix_shape (width row : Nat) :
    ∀ (l : List (Option Color)) (x : Nat), x < width →
      width ≤ x + l.length →
      (Lib.emitPix width row l x).2 = true →
      ∃ g : Nat → Color,
        (Lib.emitPix width row l x).1 =
          (List.range' x (width - x)).map
            (fun xx => Call.setPixel xx row (g xx).r (g xx).g (g xx).b
              (g xx).a) := by
  intro l
  induction l with
  | nil => intro x hx hlen _; simp at hlen; omega
  | cons hd rest ih =>
    intro x hx hlen hok
    rcases hd with _ | c
    · simp [Lib.emitPix] at hok
    · by_cases hw : width ≤ x + 1
      · have hwx : width - x = 1 := by omega
        refine ⟨fun _ => c, ?_⟩
        simp only [Lib.emitPix, if_pos hw, hwx, List.range'_one, List.map_cons,
          List.map_nil]
      · simp only [Lib.emitPix, if_neg hw] at hok ⊢
        obtain ⟨g, hg⟩ := ih (x + 1) (by omega)
          (by simp at hlen; omega) hok
        refine ⟨fun xx => if xx = x then c else g xx, ?_⟩
        have hsp : width - x = (width - (x + 1)) + 1 := by omega
        rw [hsp, List.range'_succ, List.map_cons, hg]
        simp only [if_true]
        congr 1
        apply List.map_congr_left
        intro a ha
        obtain ⟨i, hi, rfl⟩ := List.mem_range'.1 ha
        rw [if_neg (by omega)]

theorem idx1_length : ∀ l : List Nat, (Lib.idx1 l).length = 8 * l.length := by
  intro l
  induction l with
  | nil => simp [Lib.idx1]
  | cons b rest ih =>
    simp [Lib.idx1, Lib.bitsOfByte, ih]
    omega

theorem idx4_length : ∀ l : List Nat, (Lib.idx4 l).length = 2 * l.length := by
  intro l
  induction l with
  | nil => simp [Lib.idx4]
  | cons b rest ih =>
    simp [Lib.idx4, ih]
    omega

theorem colors16_cover (m : Mask) :
    ∀ l : List Nat, l.length ≤ 2 * (Lib.colors16 m l).length := by
  have key : ∀ (n : Nat) (l : List Nat), l.length ≤ n →
      l.length ≤ 2 * (Lib.colors16 m l).length := by
    intro n
    induction n with
    | zero =>
      intro l hl
      omega
    | succ n ih =>
      intro l hl
      rcases l with _ | ⟨b0, _ | ⟨b1, rest⟩⟩
      · simp [Lib.colors16]
      · simp [Lib.colors16]
      · have hr := ih rest (by simp at hl; omega)
        simp [Lib.colors16]
        omega
  intro l
  exact key l.length l le_rfl

theorem colors24_cover :
    ∀ l : List Nat, l.length ≤ 3 * (Lib.colors24 l).length := by
  have key : ∀ (n : Nat) (l : List Nat), l.length ≤ n →
      l.length ≤ 3 * (Lib.colors24 l).length := by
    intro n
    induction n with
    | zero =>
      intro l hl
      omega
    | succ n ih =>
      intro l hl
      rcases l with _ | ⟨b0, _ | ⟨b1, _ | ⟨b2, rest⟩⟩⟩
      · simp [Lib.colors24]
      · simp [Lib.colors24]
      · simp [Lib.colors24]
      · have hr := ih rest (by simp at hl; omega)
        simp [Lib.colors24]
        omega
  intro l
  exact key l.length l le_rfl

theorem colors32_cover (m : Mask) :
    ∀ l : List Nat, l.length ≤ 4 * (Lib.colors32 m l).length := by
  have key : ∀ (n : Nat) (l : List Nat), l.length ≤ n →
      l.length ≤ 4 * (Lib.colors32 m l).length := by
    intro n
    induction n with
    | zero =>
      intro l hl
      omega
    | succ n ih =>
      intro l hl
      rcases l with _ | ⟨b0, _ | ⟨b1, _ | ⟨b2, _ | ⟨b3, rest⟩⟩⟩⟩
      · simp [Lib.colors32]
      · simp [Lib.colors32]
      · simp [Lib.colors32]
      · simp [Lib.colors32]
      · have hr := ih rest (by simp at hl; omega)
        simp [Lib.colors32]
        omega
  intro l
  exact key l.length l le_rfl

theorem stride_mul (w bpp : Nat) :
    w * bpp ≤ 8 * ((w * bpp + 31) / 32 * 4) := by
  omega

theorem decode1_rows (w row : Nat) (buf : List Nat) (pal : List Color)
    (hlen : buf.length = (w * 1 + 31) / 32 * 4)
    (hok : (Lib.decode_1bpp w row buf pal).2 = true) :
    ∃ g : Nat → Color, (Lib.decode_1bpp w row buf pal).1 =
      (List.range w).map (fun xx => Call.setPixel xx row (g xx).r (g xx).g
        (g xx).b (g xx).a) := by
  by_cases hw : w = 0
  · subst hw
    have hb : buf = [] := List.length_eq_zero.1 (by simpa using hlen)
    subst hb
    exact ⟨fun _ => ⟨0, 0, 0, 0⟩, by simp [Lib.decode_1bpp, Lib.idx1, Lib.emitPix]⟩
  · have h8 := stride_mul w 1
    have hlist := idx1_length buf
    have hlen2 : w ≤ 0 + ((Lib.idx1 buf).map pal.get?).length := by
      simp only [List.length_map]
      omega
    have hsh := emitPix_shape w row ((Lib.idx1 buf).map pal.get?) 0
      (by omega) hlen2 hok
    simpa [Lib.decode_1bpp, List.range_eq_range'] using hsh

theorem decode4_rows (w row : Nat) (buf : List Nat) (pal : List Color)
    (hlen : buf.length = (w * 4 + 31) / 32 * 4)
    (hok : (Lib.decode_4bpp w row buf pal).2 = true) :
    ∃ g : Nat → Color, (Lib.decode_4bpp w row buf pal).1 =
      (List.range w).map (fun xx => Call.setPixel xx row (g xx).r (g xx).g
        (g xx).b (g xx).a) := by
  by_cases hw : w = 0
  · subst hw
    have hb : buf = [] := List.length_eq_zero.1 (by simpa using hlen)
    subst hb
    exact ⟨fun _ => ⟨0, 0, 0, 0⟩, by simp [Lib.decode_4bpp, Lib.idx4, Lib.emitPix]⟩
  · have h8 := stride_mul w 4
    have hlist := idx4_length buf
    have hlen2 : w ≤ 0 + ((Lib.idx4 buf).map pal.get?).length := by
      simp only [List.length_map]
      omega
    have hsh := emitPix_shape w row ((Lib.idx4 buf).map pal.get?) 0
      (by omega) hlen2 hok
    simpa [Lib.decode_4bpp, List.range_eq_range'] using hsh

theorem decode8_rows (w row : Nat) (buf : List Nat) (pal : List Color)
    (hlen : buf.length = (w * 8 + 31) / 32 * 4)
    (hok : (Lib.decode_8bpp w row buf pal).2 = true) :
    ∃ g : Nat → Color, (Lib.decode_8bpp w row buf pal).1 =
      (List.range w).map (fun xx => Call.setPixel xx row (g xx).r (g xx).g
        (g xx).b (g xx).a) := by
  by_cases hw : w = 0
  · subst hw
    have hb : buf = [] := List.length_eq_zero.1 (by simpa using hlen)
    subst hb
    exact ⟨fun _ => ⟨0, 0, 0, 0⟩, by simp [Lib.decode_8bpp, Lib.emitPix]⟩
  · have h8 := stride_mul w 8
    have hlen2 : w ≤ 0 + (buf.map pal.get?).length := by
      simp only [List.length_map]
      omega
    have hsh := emitPix_shape w row (buf.map pal.get?) 0 (by omega) hlen2 hok
    simpa [Lib.decode_8bpp, List.range_eq_range'] using hsh

theorem decode16_rows (w row : Nat) (buf : List Nat) (m : Mask)
    (hlen : buf.length = (w * 16 + 31) / 32 * 4)
    (hok : (Lib.decode_16bpp w row buf m).2 = true) :
    ∃ g : Nat → Color, (Lib.decode_16bpp w row buf m).1 =
      (List.range w).map (fun xx => Call.setPixel xx row (g xx).r (g xx).g
        (g xx).b (g xx).a) := by
  by_cases hw : w = 0
  · subst hw
    have hb : buf = [] := List.length_eq_zero.1 (by simpa using hlen)
    subst hb
    exact ⟨fun _ => ⟨0, 0, 0, 0⟩, by simp [Lib.decode_16bpp, Lib.colors16, Lib.emitPix]⟩
  · have h8 := stride_mul w 16
    have hcov := colors16_cover m buf
    have hlen2 : w ≤ 0 + (Lib.colors16 m buf).length := by omega
    have hsh := emitPix_shape w row (Lib.colors16 m buf) 0 (by omega) hlen2 hok
    simpa [Lib.decode_16bpp, List.range_eq_range'] using hsh

theorem decode24_rows (w row : Nat) (buf : List Nat)
    (hlen : buf.length = (w * 24 + 31) / 32 * 4)
    (hok : (Lib.decode_24bpp w row buf).2 = true) :
    ∃ g : Nat → Color, (Lib.decode_24bpp w row buf).1 =
      (List.range w).map (fun xx => Call.setPixel xx row (g xx).r (g xx).g
        (g xx).b (g xx).a) := by
  by_cases hw : w = 0
  · subst hw
    have hb : buf = [] := List.length_eq_zero.1 (by simpa using hlen)
    subst hb
    exact ⟨fun _ => ⟨0, 0, 0, 0⟩, by simp [Lib.decode_24bpp, Lib.colors24, Lib.emitPix]⟩
  · have h8 := stride_mul w 24
    have hcov := colors24_cover buf
    have hlen2 : w ≤ 0 + (Lib.colors24 buf).length := by omega
    have hsh := emitPix_shape w row (Lib.colors24 buf) 0 (by omega) hlen2 hok
    simpa [Lib.decode_24bpp, List.range_eq_range'] using hsh

theorem decode32_rows (w row : Nat) (buf : List Nat) (m : Mask)
    (hlen : buf.length = (w * 32 + 31) / 32 * 4)
    (hok : (Lib.decode_32bpp w row buf m).2 = true) :
    ∃ g : Nat → Color, (Lib.decode_32bpp w row buf m).1 =
      (List.range w).map (fun xx => Call.setPixel xx row (g xx).r (g xx).g
        (g xx).b (g xx).a) := by
  by_cases hw : w = 0
  · subst hw
    have hb : buf = [] := List.length_eq_zero.1 (by simpa using hlen)
    subst hb
    exact ⟨fun _ => ⟨0, 0, 0, 0⟩, by simp [Lib.decode_32bpp, Lib.colors32, Lib.emitPix]⟩
  · have h8 := stride_mul w 32
    have hcov := colors32_cover m buf
    have hlen2 : w ≤ 0 + (Lib.colors32 m buf).length := by omega
    have hsh := emitPix_shape w row (Lib.colors32 m buf) 0 (by omega) hlen2 hok
    simpa [Lib.decode_32bpp, List.range_eq_range'] using hsh

theorem readBytes_len (n : Nat) (s a b : List Nat)
    (h : readBytes n s = some (a, b)) : a.length = n := by
  unfold readBytes at h
  split at h
  · rename_i hle
    simp at h
    rw [← h.1]
    simp
    omega
  · exact absurd h (by simp)

theorem flatMap_congr_mem {α β : Type} (l : List α) (f g : α → List β)
    (h : ∀ a ∈ l, f a = g a) : l.flatMap f = l.flatMap g := by
  induction l with
  | nil => rfl
  | cons a rest ih =>
    rw [List.flatMap_cons, List.flatMap_cons, h a (by simp),
      ih (fun b hb => h b (by simp [hb]))]

theorem rowsLoop_shape (dr : Nat → List Nat → List Call × Bool)
    (stride height : Nat) (bu : Bool) (w : Nat)
    (hd : ∀ row buf, buf.length = stride → (dr row buf).2 = true →
      ∃ g : Nat → Color, (dr row buf).1 =
        (List.range w).map (fun xx => Call.setPixel xx row (g xx).r (g xx).g
          (g xx).b (g xx).a)) :
    ∀ (n y : Nat) (input : List Nat) (t : List Call),
      Lib.rowsLoop dr stride height bu n y input = (t, .success) →
      ∃ f : Nat → Nat → Color,
        t = (List.range' y n).flatMap (fun yy =>
          (List.range w).map (fun xx => Call.setPixel xx
            (if bu then height - yy - 1 else yy)
            (f yy xx).r (f yy xx).g (f yy xx).b (f yy xx).a)) := by
  intro n
  induction n with
  | zero =>
    intro y input t h
    simp only [Lib.rowsLoop] at h
    refine ⟨fun _ _ => ⟨0, 0, 0, 0⟩, ?_⟩
    simp only [List.range'_zero, List.flatMap_nil]
    exact (Prod.mk.injEq _ _ _ _ ▸ h).1.symm
  | succ n ih =>
    intro y input t h
    simp only [Lib.rowsLoop] at h
    rcases hr : readBytes stride input with _ | ⟨rowbuf, rest2⟩ <;>
      simp only [hr] at h
    · exact absurd ((Prod.mk.injEq _ _ _ _ ▸ h).2) (by simp)
    · have hlen : rowbuf.length = stride := readBytes_len _ _ _ _ hr
      rcases hdr2 : dr (if bu then height - y - 1 else y) rowbuf
        with ⟨calls, ok⟩
      simp only [hdr2] at h
      rcases ok with _ | _
      · exact absurd ((Prod.mk.injEq _ _ _ _ ▸ h).2) (by simp)
      · rcases hrec : Lib.rowsLoop dr stride height bu n (y + 1) rest2
          with ⟨t2, o2⟩
        simp only [hrec] at h
        simp at h
        obtain ⟨ht, ho⟩ := h
        obtain ⟨f, hf⟩ := ih (y + 1) rest2 t2 (by rw [hrec, ho])
        obtain ⟨g, hg⟩ := hd (if bu then height - y - 1 else y) rowbuf hlen
          (by rw [hdr2])
        rw [hdr2] at hg
        simp only at hg
        refine ⟨fun yy => if yy = y then g else f yy, ?_⟩
        rw [← ht, List.range'_succ, List.flatMap_cons, hg, hf]
        congr 1
        · apply List.map_congr_left
          intro a _
          simp
        · apply flatMap_congr_mem
          intro yy hyy
          obtain ⟨i, hi, rfl⟩ := List.mem_range'.1 hyy
          have hne : ¬(y + 1 + 1 * i = y) := by omega
          simp only [if_neg hne]

theorem pickRow_rows (w bpp : Nat) (comp : Bool) (pal : List Color)
    (m : Mask)
    (hbpp : bpp = 1 ∨ bpp = 4 ∨ bpp = 8 ∨ bpp = 16 ∨ bpp = 24 ∨
      bpp = 32)
    (h8 : ¬(bpp = 8 ∧ comp = true)) (h4 : ¬(bpp = 4 ∧ comp = true)) :
    ∀ (row : Nat) (buf : List Nat),
      buf.length = (w * bpp + 31) / 32 * 4 →
      (Lib.pickRow w bpp comp pal m row buf).2 = true →
      ∃ g : Nat → Color, (Lib.pickRow w bpp comp pal m row buf).1 =
        (List.range w).map (fun xx => Call.setPixel xx row (g xx).r (g xx).g
          (g xx).b (g xx).a) := by
  intro row buf hlen hok
  rcases hbpp with hb | hb | hb | hb | hb | hb <;> subst hb
  · simp only [Lib.pickRow, if_pos rfl] at hok ⊢
    exact decode1_rows w row buf pal hlen hok
  · have hnc : ¬comp = true := fun hc => h4 ⟨rfl, hc⟩
    simp [Lib.pickRow, hnc] at hok ⊢
    exact decode4_rows w row buf pal hlen hok
  · have hnc : ¬comp = true := fun hc => h8 ⟨rfl, hc⟩
    simp [Lib.pickRow, hnc] at hok ⊢
    exact decode8_rows w row buf pal hlen hok
  · simp only [Lib.pickRow, if_neg (by omega : ¬(16 = 1)),
      if_neg (show ¬(16 = 4 ∧ ¬comp = true) from
        fun hh => absurd hh.1 (by omega)),
      if_neg (show ¬(16 = 8 ∧ ¬comp = true) from
        fun hh => absurd hh.1 (by omega)),
      if_pos rfl] at hok ⊢
    exact decode16_rows w row buf m hlen hok
  · simp only [Lib.pickRow, if_neg (by omega : ¬(24 = 1)),
      if_neg (show ¬(24 = 4 ∧ ¬comp = true) from
        fun hh => absurd hh.1 (by omega)),
      if_neg (show ¬(24 = 8 ∧ ¬comp = true) from
        fun hh => absurd hh.1 (by omega)),
      if_neg (by omega : ¬(24 = 16)), if_pos rfl] at hok ⊢
    exact decode24_rows w row buf hlen hok
  · simp only [Lib.pickRow, if_neg (by omega : ¬(32 = 1)),
      if_neg (show ¬(32 = 4 ∧ ¬comp = true) from
        fun hh => absurd hh.1 (by omega)),
      if_neg (show ¬(32 = 8 ∧ ¬comp = true) from
        fun hh => absurd hh.1 (by omega)),
      if_neg (by omega : ¬(32 = 16)), if_neg (by omega : ¬(32 = 24)),
      if_pos rfl] at hok ⊢
    exact decode32_rows w row buf m hlen hok

theorem countPx_append (a b : List Call) :
    countPx (a ++ b) = countPx a + countPx b := by
  induction a with
  | nil => simp [countPx]
  | cons c t ih =>
    cases c <;> simp [countPx, ih] <;> omega

theorem countPx_map (F : Nat → Call)
    (hF : ∀ x : Nat, ∃ p q r s t u, F x = Call.setPixel p q r s t u) :
    ∀ l : List Nat, countPx (l.map F) = l.length := by
  intro l
  induction l with
  | nil => rfl
  | cons a t ih =>
    obtain ⟨p, q, r, s, u, v, he⟩ := hF a
    simp [he, countPx, ih]

theorem countPx_flatMap (G : Nat → List Call) (c : Nat)
    (hG : ∀ y, countPx (G y) = c) :
    ∀ l : List Nat, countPx (l.flatMap G) = l.length * c := by
  intro l
  induction l with
  | nil => simp [countPx]
  | cons a t ih =>
    rw [List.flatMap_cons, countPx_append, hG, ih, List.length_cons]
    ring

/-- C4 (amended): on the uncompressed path (no RLE branch), when the
`width * bpp + 31` stride computation does not overflow `u32`, a
successful `decode` emits exactly one `set_size(width, height)` followed
by, for each of the `height` stored rows in file order, one `set_pixel`
per column `0..width`, whose destination row is `height - 1 - y` for a
bottom-up image and `y` otherwise; in particular exactly
`width * height` pixels are set. -/
theorem C4_uncompressed_trace_shape (input : List Nat)
    (hdr : Lib.Header) (rest : List Nat) (tr : List Call)
    (hp : Lib.parseHeaders input = .ok (hdr, rest))
    (hrle : Lib.rlePath hdr = false)
    (hov : hdr.core.width * hdr.core.bpp + 31 < 2 ^ 32)
    (hdec : Lib.decode input = (tr, .success)) :
    ∃ f : Nat → Nat → Color,
      tr = Call.setSize hdr.core.width hdr.core.height ::
        (List.range hdr.core.height).flatMap (fun yy =>
          (List.range hdr.core.width).map (fun xx =>
            Call.setPixel xx
              (if hdr.core.bottom_up then hdr.core.height - yy - 1 else yy)
              (f yy xx).r (f yy xx).g (f yy xx).b (f yy xx).a)) ∧
      countPx tr = hdr.core.width * hdr.core.height := by
  have hfr : ∃ r14, Lib.Header.from_reader r14 = .ok (hdr, rest) := by
    unfold Lib.parseHeaders at hp
    split at hp
    · exact absurd hp (by simp)
    · split at hp
      · exact absurd hp (by simp)
      · exact ⟨_, hp⟩
  obtain ⟨r14, hfr⟩ := hfr
  have hbpp := (from_reader_facts r14 hdr rest hfr).1
  simp only [Lib.decode, hp] at hdec
  rcases hdr with ⟨ver, ⟨w, h, bpp, planes, bu⟩, info, palOpt, bmOpt⟩
  simp only at hbpp hrle hov hdec ⊢
  simp only [Lib.decodeBody] at hdec
  split at hdec
  · simp at hdec
  · split at hdec
    · simp at hdec
    · rename_i palScrut pal hpalEq maskScrut mask hmaskEq
      split at hdec
      · rename_i h8c
        obtain ⟨hb, hcmp⟩ := h8c
        subst hb
        simp [Lib.rlePath, hcmp] at hrle
      · split at hdec
        · rename_i hn8 h4c
          obtain ⟨hb, hcmp⟩ := h4c
          subst hb
          simp [Lib.rlePath, hcmp] at hrle
        · rename_i hn8 hn4
          rcases hloop : Lib.rowsLoop
              (Lib.pickRow w bpp
                (Lib.effCompression
                  ⟨ver, ⟨w, h, bpp, planes, bu⟩, info, palOpt, bmOpt⟩)
                pal mask)
              ((w * bpp + 31) % 2 ^ 32 / 32 * 4) h bu h 0 rest
            with ⟨t, o⟩
          rw [hloop] at hdec
          simp only at hdec
          have htr : tr = Call.setSize w h :: t := by
            have := congrArg Prod.fst hdec
            simpa using this.symm
          have ho : o = .success := by
            have := congrArg Prod.snd hdec
            simpa using this
          rw [ho] at hloop
          rw [Nat.mod_eq_of_lt hov] at hloop
          obtain ⟨f, hf⟩ := rowsLoop_shape _ _ _ _ w
            (pickRow_rows w bpp _ pal mask hbpp hn8 hn4) h 0 rest t hloop
          refine ⟨f, ?_, ?_⟩
          · rw [htr, hf]
            simp only [List.range_eq_range']
          · have hrow : ∀ yy : Nat, countPx ((List.range w).map (fun xx =>
                Call.setPixel xx (if bu then h - yy - 1 else yy) (f yy xx).r
                (f yy xx).g (f yy xx).b (f yy xx).a)) = w := by
              intro yy
              rw [countPx_map _
                (fun x => ⟨x, _, _, _, _, _, rfl⟩), List.length_range]
            have h2 := countPx_flatMap _ w hrow (List.range' 0 h)
            rw [htr, hf]
            simp only [countPx, h2, List.length_range']
            exact Nat.mul_comm h w

theorem C4_uncompressed_trace_witness :
    ∃ f : Nat → Nat → Color,
      (Lib.decode inSmall24).1 =
        Call.setSize 1 1 :: (List.range 1).flatMap (fun yy =>
          (List.range 1).map (fun xx =>
            Call.setPixel xx (if true then 1 - yy - 1 else yy)
              (f yy xx).r (f yy xx).g (f yy xx).b (f yy xx).a)) ∧
      countPx (Lib.decode inSmall24).1 = 1 * 1 := by
  obtain ⟨f, h1, h2⟩ := C4_uncompressed_trace_shape inSmall24
    ⟨.microsoft3, ⟨1, 1, 24, 1, true⟩,
      some ⟨none, 0, 0, 0, 0, 0⟩, none, none⟩
    [10, 20, 30, 0] (Lib.decode inSmall24).1
    (by rfl) (by rfl) (by norm_num) (by rfl)
  exact ⟨f, h1, h2⟩

/-- C1: claimed that the RLE decoder never reads the compressed segment
at an index `≥ imageDataSize`.  The code reads the second byte of an
opcode (and delta/literal bytes) without any bound check: on the
one-byte segment `[0]` (`imageDataSize = 1`) it reads index 1 and the
process aborts; the full decode of such a file panics after `setSize`. -/
theorem C1_rle8_reads_past_declared_size :
    Lib.rle8go [0] 1 2 [⟨30, 20, 10, 255⟩] (-1) 2 0 1 0 =
      ⟨[], [0, 1], true⟩ ∧
    (1 ∈ [0, 1] ∧ ¬(1 < 1)) ∧
    Lib.decode inRle8Short = ([Call.setSize 2 2], Lib.DOut.panicked) := by
  refine ⟨by decide, ⟨by decide, by decide⟩, by decide⟩

/-- C2: claimed that an out-of-range RLE palette index fails with
`PixelDataError::PaletteIndexOutOfRange`.  The code does an unchecked
`palette[second]` lookup: with a one-entry palette and the encoded run
`(1, 5)` the lookup panics (no `PixelDataError` type exists anywhere in
the sources); the full decode of such a file panics after `setSize`. -/
theorem C2_rle8_palette_index_panics :
    Lib.rle8go [1, 5] 2 2 [⟨30, 20, 10, 255⟩] (-1) 3 0 1 0 =
      ⟨[], [0, 1], true⟩ ∧
    List.length [(⟨30, 20, 10, 255⟩ : Color)] ≤ 5 ∧
    Lib.decode inRle8PalOob = ([Call.setSize 2 2], Lib.DOut.panicked) := by
  refine ⟨by decide, by decide, by decide⟩

/-- C3: claimed that RLE with `imageDataSize = 0` returns the error value
`ConfigError::MissingCompressedLength`.  The code instead executes
`panic!("Image size in bytes can't be null ...")`: decoding such a file
aborts the process (after `setSize`, with zero `setPixel` calls) rather
than returning an error; no `ConfigError` type exists in the sources. -/
theorem C3_rle8_zero_image_size_panics :
    Lib.decode inRle8ZeroSize = ([Call.setSize 4 1], Lib.DOut.panicked) ∧
    countPx (Lib.decode inRle8ZeroSize).1 = 0 := by
  refine ⟨by decide, by decide⟩

/-- C5: claimed that any input whose first two bytes are not `B`,`M`
fails with the bad-magic error.  The check in `lib.rs` is
`header[0] != 0x42 && header[1] != 0x4D`, which only fires when both
bytes are wrong: a file starting `B`,`X` sails through and decodes
successfully. -/
theorem C5_magic_check_uses_conjunction :
    inBadMagic.get? 0 = some 0x42 ∧ inBadMagic.get? 1 = some 0x58 ∧
    (0x58 : Nat) ≠ 0x4D ∧
    Lib.decode inBadMagic =
      ([Call.setSize 1 1, Call.setPixel 0 0 30 20 10 255],
       Lib.DOut.success) := by
  refine ⟨by decide, by decide, by decide, by decide⟩

/-- C6 counterexample: header size 124 is NOT accepted by
`Version::from_isize` in `lib.rs` (the `Microsoft5` arm is commented
out); it falls through to the unsupported-version error carrying 124. -/
theorem C6_cex_124_rejected :
    Lib.Version.from_isize 124 = .error (.badVersion 124) := rfl

/-- C7 counterexample: a successfully parsed core header with height
field 0 is marked `bottom_up = false` (`height.signum() == 1` fails),
although the claim demands bottom-up for every non-negative height. -/
theorem C7_cex_zero_height_not_bottom_up :
    Lib.Core.from_buffer coreBufZeroHeight .microsoft2 =
      .ok ⟨1, 0, 1, 1, false⟩ := rfl

/-- C8 counterexample: (i) `decode_32bpp` in `bitmap.rs` derives the
alpha shift from the red mask, so with masks red `0xFF000000`, alpha
`0xFF` and raw pixel 0 it emits alpha 255 where the spec formula gives
0; (ii) with mask `0xFFFFFFFF` the `255 * _` product wraps (u32), so
`raw = mask` emits 0 where the claim demands 255; (iii) `decode_16bpp`
in `lib.rs` divides by zero (panics) on a zero red mask instead of
emitting the default 0. -/
theorem C8_cex_alpha_shift_and_overflow :
    (Bm.pixel32 ⟨0xFF000000, 0xFF0000, 0xFF00, 0xFF⟩ 0).a = 255 ∧
    specScaled 0xFF 0 255 = 0 ∧
    (Bm.pixel32 ⟨0xFFFFFFFF, 0, 0, 0⟩ 0xFFFFFFFF).r = 0 ∧
    specScaled 0xFFFFFFFF 0xFFFFFFFF 0 = 255 ∧
    Lib.pixel16 ⟨0, 0x3E0, 0x1F, 0⟩ 0 = none := by
  refine ⟨by decide, by decide, by decide, by decide, by decide⟩

/-- C4 counterexample: (i) an RLE8 decode that ends after one encoded
run succeeds having called `setPixel` once while `width*height = 2`;
(ii) a successful bottom-up uncompressed decode delivers destination
row 1 before destination row 0, not in top-to-bottom order; (iii) a
declared width of 2^27 at 32bpp wraps the stride computation to 0 and
the decode succeeds with zero `setPixel` calls. -/
theorem C4_cex_count_order_overflow :
    Lib.decode inRleEarly =
      ([Call.setSize 2 1, Call.setPixel 0 0 30 20 10 255],
       Lib.DOut.success) ∧
    countPx (Lib.decode inRleEarly).1 = 1 ∧ (2 * 1 : Nat) ≠ 1 ∧
    Lib.decode inBottomUp2 =
      ([Call.setSize 1 2, Call.setPixel 0 1 3 2 1 255,
        Call.setPixel 0 0 6 5 4 255], Lib.DOut.success) ∧
    Lib.decode inHugeWidth = ([Call.setSize (2 ^ 27) 1], Lib.DOut.success) ∧
    countPx (Lib.decode inHugeWidth).1 = 0 := by
  refine ⟨by decide, by decide, by decide, by decide, by decide, by decide⟩

end BmpRs
